import Mathlib

/-!
Verification of the icap-logger ICAP server core against its specification.

The Go source is shallowly embedded over byte lists (`List Nat`, one entry per
byte).  Streams are byte lists consumed from the front; `bufio.Reader.ReadString`
becomes `readLine`; machine integers that can matter for control flow are `Int`
with explicit range behaviour mirrored from the Go standard library
(`strconv.ParseInt`, `fmt.Sscanf`).  Loop bodies are translated one branch at a
time from `server.go`, `body.go` and the offset-based parser file; each loop is
given an explicit fuel argument (always called with fuel strictly larger than
the stream length, which the consumed-byte accounting shows is never exhausted)
so that every definition stays executable by kernel reduction.
-/

namespace Icap

/-- Byte list of an ASCII string literal (code point of every character). -/
def bytesOf (s : String) : List Nat := s.data.map Char.toNat

/-- Whitespace set of Go `strings.TrimSpace` restricted to single bytes:
space, tab, LF, VT, FF, CR. -/
def isWS (b : Nat) : Bool := b == 32 || b == 9 || b == 10 || b == 11 || b == 12 || b == 13

/-- Cutset of `strings.TrimRight(line, "\r\n")`. -/
def isCRLFByte (b : Nat) : Bool := b == 13 || b == 10

/-- Drop leading bytes satisfying `p` (Go `strings.TrimLeft`). -/
def trimLeftP (p : Nat → Bool) : List Nat → List Nat
  | [] => []
  | b :: r => if p b then trimLeftP p r else b :: r

/-- Drop trailing bytes satisfying `p` (Go `strings.TrimRight`). -/
def trimRightP (p : Nat → Bool) (l : List Nat) : List Nat :=
  (trimLeftP p l.reverse).reverse

/-- Go `strings.TrimSpace` on ASCII byte lists. -/
def trimSpaceB (l : List Nat) : List Nat := trimRightP isWS (trimLeftP isWS l)

/-- Go `strings.TrimRight(line, "\r\n")`. -/
def trimCRLF (l : List Nat) : List Nat := trimRightP isCRLFByte l

/-- Go `strings.ToLower` on ASCII bytes (the verified framing theorems restrict
ICAP header lines to ASCII, where the byte-wise mapping agrees with Go's
rune-wise one). -/
def toLowerB (l : List Nat) : List Nat :=
  l.map fun b => if 65 ≤ b && b ≤ 90 then b + 32 else b

/-- Go `strings.HasPrefix pre s` (holds when `pre` starts `s`). -/
def leadsWith : List Nat → List Nat → Bool
  | [], _ => true
  | _ :: _, [] => false
  | a :: p, b :: s => a == b && leadsWith p s

/-- Go `strings.Contains s sub`. -/
def hasSub : List Nat → List Nat → Bool
  | [], sub => sub.isEmpty
  | b :: t, sub => leadsWith sub (b :: t) || hasSub t sub

/-- Split at the first occurrence of byte `c`: Go `strings.SplitN(s, c, 2)`,
returning `(before, some after)` when `c` occurs and `(s, none)` otherwise. -/
def breakAtByte (c : Nat) : List Nat → List Nat × Option (List Nat)
  | [] => ([], none)
  | b :: r =>
    if b = c then ([], some r)
    else
      let q := breakAtByte c r
      (b :: q.1, q.2)

/-- Go `strings.Split(s, c)` for a single-byte separator. -/
def splitOnByte (c : Nat) : List Nat → List (List Nat)
  | [] => [[]]
  | b :: r =>
    if b = c then [] :: splitOnByte c r
    else
      match splitOnByte c r with
      | [] => [[b]]
      | f :: fs => (b :: f) :: fs

/-- Go `strings.SplitN(s, c, n)` for a single-byte separator. -/
def splitNByte (c : Nat) : Nat → List Nat → List (List Nat)
  | 0, _ => []
  | 1, s => [s]
  | n + 2, s =>
    match breakAtByte c s with
    | (_, none) => [s]
    | (f, some r) => f :: splitNByte c (n + 1) r

/-- Go `strings.IndexByte(s, 59)` prefix: the part of `s` before the first
semicolon (all of `s` when there is none).  Mirrors the chunk-extension strip
in `readICAPMessage` (server.go). -/
def takeUntilSemi : List Nat → List Nat
  | [] => []
  | b :: r => if b = 59 then [] else b :: takeUntilSemi r

/-- Value of a single hexadecimal digit byte, as `strconv.ParseInt` base 16
accepts it (0-9, a-f, A-F). -/
def hexDigitVal (b : Nat) : Option Nat :=
  if 48 ≤ b && b ≤ 57 then some (b - 48)
  else if 97 ≤ b && b ≤ 102 then some (b - 87)
  else if 65 ≤ b && b ≤ 70 then some (b - 55)
  else none

/-- Accumulate hexadecimal digits; `none` on the first non-digit byte. -/
def hexValAux : List Nat → Nat → Option Nat
  | [], acc => some acc
  | b :: r, acc =>
    match hexDigitVal b with
    | some d => hexValAux r (acc * 16 + d)
    | none => none

/-- Go `strconv.ParseInt(s, 16, 64)`: optional sign, one or more hex digits,
value within the signed 64-bit range; `none` models a non-nil error. -/
def parseHexInt (s : List Nat) : Option Int :=
  let signed : Bool × List Nat :=
    match s with
    | [] => (false, [])
    | b :: r => if b = 43 then (false, r) else if b = 45 then (true, r) else (false, b :: r)
  match signed.2 with
  | [] => none
  | _ =>
    match hexValAux signed.2 0 with
    | none => none
    | some v =>
      if signed.1 then (if v ≤ 2 ^ 63 then some (-(v : Int)) else none)
      else (if v < 2 ^ 63 then some (v : Int) else none)

/-- Leading decimal-digit bytes of a list. -/
def takeDecDigits : List Nat → List Nat
  | [] => []
  | b :: r => if 48 ≤ b && b ≤ 57 then b :: takeDecDigits r else []

/-- Numeric value of a decimal-digit byte list. -/
def decVal (l : List Nat) : Nat := l.foldl (fun a b => a * 10 + (b - 48)) 0

/-- Go `fmt.Sscanf(s, "%d", &offset)` with the error ignored and `offset`
initialised to 0: an optional sign followed by the longest leading run of
decimal digits; when no digit is found the scan fails and the result stays 0.
(Go would also leave 0 on 64-bit overflow; no theorem below evaluates this
model on a value that large.) -/
def sscanfInt (s : List Nat) : Int :=
  match s with
  | [] => 0
  | b :: r =>
    if b = 45 then (if (takeDecDigits r).isEmpty then 0 else -((decVal (takeDecDigits r) : Int)))
    else if b = 43 then (if (takeDecDigits r).isEmpty then 0 else ((decVal (takeDecDigits r) : Int)))
    else (if (takeDecDigits (b :: r)).isEmpty then 0 else ((decVal (takeDecDigits (b :: r)) : Int)))

/-- Decimal rendering of a natural number (Go `fmt.Sprintf` verb `%d`). -/
def natDec (n : Nat) : List Nat := (Nat.toDigits 10 n).map Char.toNat

/-- Go `bufio.Reader.ReadString(10)`: the line up to and including the first
LF byte, the remaining stream, and a flag that is `false` exactly when the
delimiter was not found (Go returns the partial data together with `io.EOF`). -/
def readLine : List Nat → List Nat × List Nat × Bool
  | [] => ([], [], false)
  | b :: s =>
    if b = 10 then ([10], s, true)
    else
      let r := readLine s
      (b :: r.1, r.2.1, r.2.2)

theorem readLine_of_line (p rest : List Nat) (hp : ∀ b ∈ p, b ≠ 10) :
    readLine (p ++ 10 :: rest) = (p ++ [10], rest, true) := by
  induction p with
  | nil => simp [readLine]
  | cons b q ih =>
    have hb : b ≠ 10 := hp b (by simp)
    have hq : ∀ x ∈ q, x ≠ 10 := fun x hx => hp x (by simp [hx])
    simp [readLine, hb, ih hq]

theorem readLine_length (s : List Nat) :
    (readLine s).1.length + (readLine s).2.1.length = s.length := by
  induction s with
  | nil => simp [readLine]
  | cons b r ih =>
    by_cases hb : b = 10
    · simp [readLine, hb]; omega
    · simp only [readLine, if_neg hb]
      simp only [List.length_cons]
      omega

theorem readLine_found_ne_nil (s : List Nat) (h : (readLine s).2.2 = true) :
    (readLine s).1 ≠ [] := by
  cases s with
  | nil => simp [readLine] at h
  | cons b r =>
    by_cases hb : b = 10
    · simp [readLine, hb]
    · simp [readLine, hb]

theorem readLine_rest_lt (s : List Nat) (h : (readLine s).2.2 = true) :
    (readLine s).2.1.length < s.length := by
  have hlen := readLine_length s
  have hne := readLine_found_ne_nil s h
  have : 0 < (readLine s).1.length := List.length_pos.mpr hne
  omega

/-! ## ICAP framed reader (`readICAPMessage`, server.go) -/

/-- Error kinds of `readICAPMessage`: `eof` stands for any underlying read
error surfaced by `bufio.Reader.ReadString` (end of stream in this model) and
`tooLarge` for the `ICAP message exceeds max size` error. -/
inductive ReadErr
  | eof
  | tooLarge
deriving DecidableEq

/-- Result of one framing phase: bytes appended to the output buffer, the
remaining stream, the updated running total, and the error if any. -/
structure SectOut where
  buf : List Nat
  rest : List Nat
  total : Int
  err : Option ReadErr
deriving DecidableEq

/-- Result of phase 1 (ICAP start line and headers), which additionally
carries the retained lower-cased `Encapsulated` header line. -/
structure HdrOut where
  buf : List Nat
  rest : List Nat
  total : Int
  encVal : List Nat
  err : Option ReadErr
deriving DecidableEq

/-- Token the phase-1 loop looks for with `strings.HasPrefix` (server.go). -/
def tokEncapsulated : List Nat := bytesOf "encapsulated:"

/-- Tokens that `readICAPMessage` looks for with `strings.Contains`. -/
def tokReqHdr : List Nat := bytesOf "req-hdr"

/-- Token `res-hdr` of the `Encapsulated` header. -/
def tokResHdr : List Nat := bytesOf "res-hdr"

/-- Token `req-body` of the `Encapsulated` header. -/
def tokReqBody : List Nat := bytesOf "req-body"

/-- Token `res-body` of the `Encapsulated` header. -/
def tokResBody : List Nat := bytesOf "res-body"

/-- Token `null-body` of the `Encapsulated` header. -/
def tokNullBody : List Nat := bytesOf "null-body"

/-- Update of `encapsulatedVal` performed by the phase-1 loop body on a
non-blank line (server.go lines 74-77). -/
def encValStep (acc l : List Nat) : List Nat :=
  let lower := toLowerB (trimCRLF l)
  if leadsWith tokEncapsulated lower then lower else acc

/-- Phase 1 of `readICAPMessage` (server.go lines 60-78): read CRLF lines up
to the blank line, accumulating bytes, enforcing `total > maxSize`, and
retaining the lower-cased `Encapsulated` line.  The Go order of operations is
kept: the size check precedes both the buffer write and the error check, so a
line that overflows is not appended while a line cut short by end of stream
is. -/
def readICAPHeadersF : Nat → List Nat → Int → Int → List Nat → HdrOut
  | 0, s, total, _, encVal => ⟨[], s, total, encVal, some ReadErr.eof⟩
  | fuel + 1, s, total, maxSize, encVal =>
    let L := readLine s
    let t := total + (L.1.length : Int)
    if t > maxSize then ⟨[], L.2.1, t, encVal, some ReadErr.tooLarge⟩
    else if L.2.2 = false then ⟨L.1, L.2.1, t, encVal, some ReadErr.eof⟩
    else if (trimCRLF L.1).isEmpty then ⟨L.1, L.2.1, t, encVal, none⟩
    else
      let r := readICAPHeadersF fuel L.2.1 t maxSize (encValStep encVal L.1)
      ⟨L.1 ++ r.buf, r.rest, r.total, r.encVal, r.err⟩

/-- Phase 1 at its call site, with fuel one more than the stream length (each
iteration consumes at least one byte, so the fuel cannot run out). -/
def readICAPHeaders (s : List Nat) (total maxSize : Int) (encVal : List Nat) : HdrOut :=
  readICAPHeadersF (s.length + 1) s total maxSize encVal

/-- Phases 2 and 3 of `readICAPMessage` (server.go lines 88-121): read CRLF
lines of one encapsulated HTTP header section up to its blank line, with the
same size...error ordering as phase 1. -/
def readHdrSectionF : Nat → List Nat → Int → Int → SectOut
  | 0, s, total, _ => ⟨[], s, total, some ReadErr.eof⟩
  | fuel + 1, s, total, maxSize =>
    let L := readLine s
    let t := total + (L.1.length : Int)
    if t > maxSize then ⟨[], L.2.1, t, some ReadErr.tooLarge⟩
    else if L.2.2 = false then ⟨L.1, L.2.1, t, some ReadErr.eof⟩
    else if (trimCRLF L.1).isEmpty then ⟨L.1, L.2.1, t, none⟩
    else
      let r := readHdrSectionF fuel L.2.1 t maxSize
      ⟨L.1 ++ r.buf, r.rest, r.total, r.err⟩

/-- Header-section phase at its call site. -/
def readHdrSection (s : List Nat) (total maxSize : Int) : SectOut :=
  readHdrSectionF (s.length + 1) s total maxSize

/-- Phase 4 of `readICAPMessage` (server.go lines 130-160): chunked framing.
A size line is always appended before its error check; a parse failure or a
zero size reads one trailing line and stops; an overflowing chunk stops with
no error (silent truncation); chunk data plus its CRLF is read by count with
`io.ReadFull`, a short read appending what arrived and stopping with no
error.  `none` models the Go runtime panic of `make([]byte, size+2)` on line
153 when the parsed size is below -2: `strconv.ParseInt` accepts a leading
sign, the overflow break fires only when `total+size` is large, so a
sufficiently negative size line reaches the allocation and crashes the
process.  A parsed size of -1 or -2 allocates 1 or 0 bytes in Go, which is
exactly the `Int.toNat` clamp. -/
def readChunkLoopF : Nat → List Nat → Int → Int → Option SectOut
  | 0, s, total, _ => some ⟨[], s, total, some ReadErr.eof⟩
  | fuel + 1, s, total, maxSize =>
    let L := readLine s
    let t := total + (L.1.length : Int)
    if L.2.2 = false then some ⟨L.1, L.2.1, t, some ReadErr.eof⟩
    else
      match parseHexInt (takeUntilSemi (trimSpaceB L.1)) with
      | none =>
        let tr := readLine L.2.1
        some ⟨L.1 ++ tr.1, tr.2.1, t, none⟩
      | some size =>
        if size = 0 then
          let tr := readLine L.2.1
          some ⟨L.1 ++ tr.1, tr.2.1, t, none⟩
        else if t + size > maxSize then some ⟨L.1, L.2.1, t, none⟩
        else if size + 2 < 0 then none
        else
          let kn := (size + 2).toNat
          let taken := L.2.1.take kn
          let t2 := t + (taken.length : Int)
          if taken.length < kn then some ⟨L.1 ++ taken, L.2.1.drop kn, t2, none⟩
          else
            match readChunkLoopF fuel (L.2.1.drop kn) t2 maxSize with
            | none => none
            | some r => some ⟨L.1 ++ taken ++ r.buf, r.rest, r.total, r.err⟩

/-- Chunked phase at its call site; `none` is the propagated panic. -/
def readChunkLoop (s : List Nat) (total maxSize : Int) : Option SectOut :=
  readChunkLoopF (s.length + 1) s total maxSize

/-- Phases 1-3 of `readICAPMessage` composed as in server.go: phase 1, the
early return when no `Encapsulated` header was seen, then the `req-hdr` and
`res-hdr` sections, each guarded by `strings.Contains` on the retained
header line. -/
def readICAPPhases123 (s : List Nat) (maxSize : Int) : HdrOut :=
  let p1 := readICAPHeaders s 0 maxSize []
  match p1.err with
  | some e => ⟨p1.buf, p1.rest, p1.total, p1.encVal, some e⟩
  | none =>
    if p1.encVal.isEmpty then ⟨p1.buf, p1.rest, p1.total, p1.encVal, none⟩
    else
      let afterReq : HdrOut :=
        if hasSub p1.encVal tokReqHdr then
          let p2 := readHdrSection p1.rest p1.total maxSize
          ⟨p1.buf ++ p2.buf, p2.rest, p2.total, p1.encVal, p2.err⟩
        else ⟨p1.buf, p1.rest, p1.total, p1.encVal, none⟩
      match afterReq.err with
      | some _ => afterReq
      | none =>
        if hasSub p1.encVal tokResHdr then
          let p3 := readHdrSection afterReq.rest afterReq.total maxSize
          ⟨afterReq.buf ++ p3.buf, p3.rest, p3.total, p1.encVal, p3.err⟩
        else afterReq

/-- The framed reader `readICAPMessage` (server.go lines 54-164) over a byte
stream: returns the accumulated message bytes, the unconsumed remainder of
the stream, and the error if any; `none` propagates the chunked-phase
runtime panic, on which the Go function never returns. -/
def readICAPMessage (s : List Nat) (maxSize : Int) :
    Option (List Nat × List Nat × Option ReadErr) :=
  let p := readICAPPhases123 s maxSize
  match p.err with
  | some e => some (p.buf, p.rest, some e)
  | none =>
    if p.encVal.isEmpty then some (p.buf, p.rest, none)
    else if (hasSub p.encVal tokReqBody || hasSub p.encVal tokResBody)
        && !hasSub p.encVal tokNullBody then
      match readChunkLoop p.rest p.total maxSize with
      | none => none
      | some c => some (p.buf ++ c.buf, c.rest, c.err)
    else some (p.buf, p.rest, none)

/-! ## Encapsulation decomposer (`splitEncapsulated`, offset-based variant) -/

/-- Name `null-body`, which the token parser skips. -/
def tokNullBodyName : List Nat := bytesOf "null-body"

/-- One token of the `Encapsulated` header value, as the loop body of
`splitEncapsulated` handles it: `strings.SplitN(token, "=", 2)` must yield two
parts (tokens without `=` are skipped), the name is lower-cased and trimmed,
`null-body` is skipped, and the offset is scanned by `fmt.Sscanf` with its
error ignored (so an unparseable offset stays 0 and the token is kept). -/
def encToken (tokenRaw : List Nat) : Option (List Nat × Int) :=
  let token := trimSpaceB tokenRaw
  match breakAtByte 61 token with
  | (_, none) => none
  | (k, some v) =>
    let name := trimSpaceB (toLowerB k)
    if name = tokNullBodyName then none
    else some (name, sscanfInt (trimSpaceB v))

/-- The `(name, offset)` list built by the first loop of `splitEncapsulated`
from the comma-separated header value. -/
def parseEncTokens (encHeader : List Nat) : List (List Nat × Int) :=
  (splitOnByte 44 encHeader).filterMap encToken

/-- The slicing loop of `splitEncapsulated`: each kept token spans from its
offset to the next token's offset (buffer length for the last), offsets at or
past the buffer length are skipped, and ends beyond the buffer are clamped.
`none` models the Go runtime panic that `make([]byte, end-start)` or
`data[start:end]` raises when the span is negative or starts below zero. -/
def sliceSections (data : List Nat) : List (List Nat × Int) → Option (List (List Nat × List Nat))
  | [] => some []
  | (name, off) :: rest =>
    let endI : Int :=
      match rest with
      | [] => (data.length : Int)
      | (_, off2) :: _ => off2
    if off ≥ (data.length : Int) then sliceSections data rest
    else
      let endC := if endI > (data.length : Int) then (data.length : Int) else endI
      if off < 0 ∨ endC < off then none
      else
        match sliceSections data rest with
        | none => none
        | some tail => some ((name, (data.drop off.toNat).take (endC - off).toNat) :: tail)

/-- The offset-based `splitEncapsulated(data, encHeader)` (RFC 3507 section
4.4.1 variant).  The result keeps the insertion order of the Go loop; `none`
models a runtime panic in the slicing loop. -/
def splitEncapsulated (data encHeader : List Nat) : Option (List (List Nat × List Nat)) :=
  if encHeader.isEmpty || data.isEmpty then some []
  else sliceSections data (parseEncTokens encHeader)

/-- Lookup in the section list with Go map semantics: a later insertion of the
same name overwrites an earlier one. -/
def lookupLast (m : List (List Nat × List Nat)) (k : List Nat) : Option (List Nat) :=
  match m with
  | [] => none
  | (k2, v) :: rest =>
    match lookupLast rest k with
    | some v2 => some v2
    | none => if k2 = k then some v else none

/-! ## Body decoding and sanitizing (body.go) -/

/-- The chunked-transfer decoder `decodeChunked` (body.go lines 15-39).  Note
the contrast with the framing loop: a read error discards the partial line and
stops, a blank line is skipped, the size line is parsed with NO semicolon
stripping, a short chunk read discards the partial chunk and stops, and the
line after each chunk is consumed with its error ignored.  `none` models the
Go runtime panic of `make([]byte, size)` on line 31 when the parsed size is
negative, which `strconv.ParseInt`'s accepted leading sign makes
reachable. -/
def decodeChunkedF : Nat → List Nat → Option (List Nat)
  | 0, _ => some []
  | fuel + 1, s =>
    let L := readLine s
    if L.2.2 = false then some []
    else
      let line := trimSpaceB L.1
      if line.isEmpty then decodeChunkedF fuel L.2.1
      else
        match parseHexInt line with
        | none => some []
        | some size =>
          if size = 0 then some []
          else if size < 0 then none
          else
            let kn := size.toNat
            let chunk := L.2.1.take kn
            if chunk.length < kn then some []
            else
              match decodeChunkedF fuel (readLine (L.2.1.drop kn)).2.1 with
              | none => none
              | some tail => some (chunk ++ tail)

/-- The decoder at its call site (fuel exceeds the input length, which each
iteration decreases); `none` is the propagated panic. -/
def decodeChunked (s : List Nat) : Option (List Nat) := decodeChunkedF (s.length + 1) s

/-- Byte set the binary classifier counts (body.go line 66). -/
def nonPrintableB (b : Nat) : Bool := b < 9 || (13 < b && b < 32) || b == 127

/-- The binary classifier `isBinary` (body.go lines 56-71): over the first 512
bytes, more than 10 percent non-printable (integer division); empty input is
not binary. -/
def isBinary (data : List Nat) : Bool :=
  let sample := data.take 512
  if sample.isEmpty then false
  else decide (10 < sample.countP nonPrintableB * 100 / sample.length)

/-- One part yielded by the Go `mime/multipart` reader: the parsed
`Content-Disposition` filename and field name, the `Content-Type` header
value, and the part's content bytes.  This is the interface `parseMultipartBody`
consumes via `part.FileName()`, `part.FormName()`, `part.Header.Get` and
`io.ReadAll(part)`. -/
structure MPart where
  filename : List Nat
  formName : List Nat
  contentType : List Nat
  data : List Nat
deriving DecidableEq

/-- Byte-level model of the Go `%q` verb (`strconv.Quote`): ASCII printables
kept, standard escapes for quote, backslash and control characters, `\x`
escapes otherwise. -/
def goQuoteByte (b : Nat) : List Nat :=
  if b = 34 then [92, 34]
  else if b = 92 then [92, 92]
  else if b = 7 then [92, 97]
  else if b = 8 then [92, 98]
  else if b = 9 then [92, 116]
  else if b = 10 then [92, 110]
  else if b = 11 then [92, 118]
  else if b = 12 then [92, 102]
  else if b = 13 then [92, 114]
  else if 32 ≤ b && b ≤ 126 then [b]
  else bytesOf "\\x" ++ (if b < 16 then [48] else []) ++
    (Nat.toDigits 16 b).map Char.toNat

/-- Go `%q` of a byte string. -/
def goQuote (s : List Nat) : List Nat :=
  34 :: (s.map goQuoteByte).flatten ++ [34]

/-- The token the loop body of `parseMultipartBody` (body.go lines 85-98)
emits for one part: a file part contributes only its filename, content type
and byte count; a binary field contributes name and byte count; a text field
is inlined. -/
def partToken (p : MPart) : List Nat :=
  let ct := if p.contentType.isEmpty then bytesOf "application/octet-stream" else p.contentType
  if ¬p.filename.isEmpty then
    bytesOf "[file: " ++ goQuote p.filename ++ bytesOf ", content-type: " ++ goQuote ct
      ++ bytesOf ", " ++ natDec p.data.length ++ bytesOf " bytes]"
  else if isBinary p.data then
    bytesOf "[field: " ++ goQuote p.formName ++ bytesOf ", binary, " ++ natDec p.data.length
      ++ bytesOf " bytes]"
  else
    bytesOf "[field: " ++ goQuote p.formName ++ bytesOf " = " ++ goQuote p.data ++ bytesOf "]"

/-- The summarization loop of `parseMultipartBody` over the parts yielded by
the multipart reader, with the zero-parts fallback (body.go lines 100-103). -/
def renderParts (parts : List MPart) (bodyLen : Nat) : List Nat :=
  if parts.isEmpty then bytesOf "[multipart: 0 parts, " ++ natDec bodyLen ++ bytesOf " bytes]"
  else List.intercalate (bytesOf "; ") (parts.map partToken)

/-- Split a byte list at the first occurrence of `delim` (as a contiguous
subsequence), returning the part before it and, when found, the part after. -/
def splitAtSub (delim : List Nat) : List Nat → List Nat × Option (List Nat)
  | [] => ([], none)
  | b :: r =>
    if leadsWith delim (b :: r) then ([], some ((b :: r).drop delim.length))
    else
      let q := splitAtSub delim r
      (b :: q.1, q.2)

/-- Case-insensitive first-match header lookup (model of `http.Header.Get`,
whose canonicalisation of both stored and queried keys amounts to a
case-insensitive match for the ASCII header names used here); empty when
absent. -/
def headerGet (hs : List (List Nat × List Nat)) (k : List Nat) : List Nat :=
  ((hs.find? fun e => toLowerB e.1 == toLowerB k).map Prod.snd).getD []

/-- Strip one level of surrounding double quotes. -/
def unquoteB (v : List Nat) : List Nat :=
  match v with
  | 34 :: r => if r ≠ [] ∧ r.getLast? = some 34 then r.dropLast else 34 :: r
  | _ => v

/-- Value of parameter `key` in a `name=value; name=value` header value
(model of the parameter map of `mime.ParseMediaType`); empty when absent. -/
def paramOf (v key : List Nat) : List Nat :=
  ((splitOnByte 59 v).findSome? fun p =>
    match breakAtByte 61 (trimSpaceB p) with
    | (_, none) => none
    | (k, some pv) =>
      if toLowerB (trimSpaceB k) = key then some (unquoteB (trimSpaceB pv)) else none).getD []

/-- Model of the multipart dispatch of `sanitizeBody`: `mime.ParseMediaType`
succeeding with a media type whose lower-cased form starts with `multipart/`
and whose parameters contain a boundary. -/
def mediaTypeBoundary (ct : List Nat) : Option (List Nat) :=
  match splitOnByte 59 ct with
  | [] => none
  | mt :: _ =>
    if leadsWith (bytesOf "multipart/") (toLowerB (trimSpaceB mt)) then
      let b := paramOf ct (bytesOf "boundary")
      if b.isEmpty then none else some b
    else none

/-- Header block of one multipart part: CRLF lines up to a blank line, each
with a colon (model of `textproto.ReadMIMEHeader`); `none` on malformed
input, where the Go reader errors and `parseMultipartBody` stops. -/
def mpHeaders : Nat → List Nat → List (List Nat × List Nat) →
    Option (List (List Nat × List Nat) × List Nat)
  | 0, _, _ => none
  | fuel + 1, s, acc =>
    let L := readLine s
    if L.2.2 = false then none
    else
      let t := trimCRLF L.1
      if t.isEmpty then some (acc, L.2.1)
      else
        match breakAtByte 58 t with
        | (_, none) => none
        | (k, some v) => mpHeaders fuel L.2.1 (acc ++ [(trimSpaceB k, trimSpaceB v)])

/-- Part record built from a part's headers and content, as
`part.FileName()`, `part.FormName()` and `part.Header.Get` expose them. -/
def mkPart (hs : List (List Nat × List Nat)) (content : List Nat) : MPart :=
  let cd := headerGet hs (bytesOf "Content-Disposition")
  ⟨paramOf cd (bytesOf "filename"), paramOf cd (bytesOf "name"),
    headerGet hs (bytesOf "Content-Type"), content⟩

/-- Parts after the first delimiter: stop at the closing `--`, otherwise skip
the rest of the delimiter line, read the part headers, and take the content
up to the next delimiter (everything that remains when the terminator is
missing, matching the ignored `io.ReadAll` error in body.go). -/
def mpParts : Nat → List Nat → List Nat → List MPart
  | 0, _, _ => []
  | fuel + 1, delim, s =>
    if leadsWith [45, 45] s then []
    else
      let L := readLine s
      if L.2.2 = false then []
      else
        match mpHeaders (s.length + 1) L.2.1 [] with
        | none => []
        | some (hs, rest) =>
          let q := splitAtSub delim rest
          match q.2 with
          | none => [mkPart hs q.1]
          | some after => mkPart hs q.1 :: mpParts fuel delim after

/-- Model of the iteration of Go's `mime/multipart.Reader` over a body: parts
are delimited by `CRLF "--" boundary` lines (a leading CRLF is prepended so
that a delimiter at the very start is found). -/
def goMultipartParts (body boundary : List Nat) : List MPart :=
  let delim := [13, 10, 45, 45] ++ boundary
  match (splitAtSub delim ([13, 10] ++ body)).2 with
  | none => []
  | some after => mpParts (body.length + 1) delim after

/-- The summarizer `parseMultipartBody` (body.go lines 76-104): the multipart
reader's parts rendered by the summarization loop, with the total body length
feeding the zero-parts fallback. -/
def parseMultipartBody (body boundary : List Nat) : List Nat :=
  renderParts (goMultipartParts body boundary) body.length

/-- The dispatcher `sanitizeBody` (body.go lines 111-127): empty body stays
empty; a non-empty `Content-Type` naming a multipart media type with a
boundary delegates to the summarizer; otherwise binary content becomes a
placeholder and text is returned verbatim. -/
def sanitizeBody (body contentType : List Nat) : List Nat :=
  if body.isEmpty then []
  else
    match (if contentType.isEmpty then none else mediaTypeBoundary contentType) with
    | some b => parseMultipartBody body b
    | none =>
      if isBinary body then bytesOf "[binary: " ++ natDec body.length ++ bytesOf " bytes]"
      else body

/-! ## ICAP request parsing (`parseICAP`, offset-based variant) and the
connection handler's record fields (server.go `handleConn`) -/

/-- Parsed fields of `icapInfo` (types.go) that the verified claims read.
The URL-derived fields `reqPath` and `destinationURL`, which no claim below
mentions, are not modelled. -/
structure InfoModel where
  icapMethod : List Nat
  icapURL : List Nat
  icapHeaders : List (List Nat × List Nat)
  reqMethod : List Nat
  reqHeaders : List (List Nat × List Nat)
  reqBody : List Nat
  respStatus : List Nat
  respHeaders : List (List Nat × List Nat)
  respBody : List Nat
deriving DecidableEq

/-- The all-empty `icapInfo` zero value. -/
def emptyInfo : InfoModel := ⟨[], [], [], [], [], [], [], [], []⟩

/-- The ICAP header loop of `parseICAP`: trim each line, stop on a blank line
or read error (a partial line cut short by the error is discarded), keep
`key: value` pairs, and retain the value of the `Encapsulated` header
(matched case-insensitively). -/
def parseICAPHeaderLoop : Nat → List Nat → List (List Nat × List Nat) → List Nat →
    List (List Nat × List Nat) × List Nat × List Nat
  | 0, s, hs, enc => (hs, enc, s)
  | fuel + 1, s, hs, enc =>
    let L := readLine s
    let line := trimSpaceB L.1
    if line.isEmpty || L.2.2 = false then (hs, enc, L.2.1)
    else
      match breakAtByte 58 line with
      | (_, none) => parseICAPHeaderLoop fuel L.2.1 hs enc
      | (k, some v) =>
        let key := trimSpaceB k
        let val := trimSpaceB v
        parseICAPHeaderLoop fuel L.2.1 (hs ++ [(key, val)])
          (if toLowerB key = bytesOf "encapsulated" then val else enc)

/-- Model of the Go standard library `net/http.ReadRequest` restricted to the
fields `parseICAP` consumes: the request line must be `METHOD SP TARGET SP
PROTO` with an HTTP/1.x protocol, followed by a colon-separated header block
ending in a blank line; `none` models a parse error. -/
def readRequestModel (bs : List Nat) : Option (List Nat × List (List Nat × List Nat)) :=
  let L := readLine bs
  if L.2.2 = false then none
  else
    match splitNByte 32 3 (trimCRLF L.1) with
    | [mth, tgt, proto] =>
      if mth.isEmpty || tgt.isEmpty then none
      else if proto = bytesOf "HTTP/1.1" || proto = bytesOf "HTTP/1.0" then
        match mpHeaders (bs.length + 1) L.2.1 [] with
        | none => none
        | some (hs, _) => some (mth, hs)
      else none
    | _ => none

/-- Model of the Go standard library `net/http.ReadResponse` restricted to
the fields `parseICAP` consumes: status line `PROTO SP STATUS`, then the
header block; the status keeps its textual form (for example `200 OK`). -/
def readResponseModel (bs : List Nat) : Option (List Nat × List (List Nat × List Nat)) :=
  let L := readLine bs
  if L.2.2 = false then none
  else
    match breakAtByte 32 (trimCRLF L.1) with
    | (_, none) => none
    | (proto, some status) =>
      if leadsWith (bytesOf "HTTP/") proto then
        match mpHeaders (bs.length + 1) L.2.1 [] with
        | none => none
        | some (hs, _) => some (trimLeftP isWS status, hs)
      else none

/-- The offset-based `parseICAP` over raw message bytes: request line, ICAP
headers with the `Encapsulated` value retained, offset-based section split,
HTTP fragment reconstruction, and chunked decoding plus sanitizing of the
body sections.  `none` propagates the modelled panic of the slicer or of the
chunked decoder. -/
def parseICAPModel (raw : List Nat) : Option InfoModel :=
  let L := readLine raw
  if L.2.2 = false then some emptyInfo
  else
    let requestLine := trimSpaceB L.1
    let parts := splitNByte 32 3 requestLine
    let base : InfoModel :=
      if parts.length ≥ 2 then
        { emptyInfo with icapMethod := parts.getD 0 [], icapURL := parts.getD 1 [] }
      else emptyInfo
    let hl := parseICAPHeaderLoop (raw.length + 1) L.2.1 [] []
    match splitEncapsulated hl.2.2 hl.2.1 with
    | none => none
    | some sections =>
      let m1 : InfoModel := { base with icapHeaders := hl.1 }
      let m2 : InfoModel :=
        match lookupLast sections tokReqHdr with
        | some bs =>
          if ¬bs.isEmpty then
            match readRequestModel bs with
            | some rq => { m1 with reqMethod := rq.1, reqHeaders := rq.2 }
            | none => m1
          else m1
        | none => m1
      let m3 : InfoModel :=
        match lookupLast sections tokResHdr with
        | some bs =>
          if ¬bs.isEmpty then
            match readResponseModel bs with
            | some rp => { m2 with respStatus := rp.1, respHeaders := rp.2 }
            | none => m2
          else m2
        | none => m2
      let m4opt : Option InfoModel :=
        match lookupLast sections tokReqBody with
        | some bs =>
          if ¬bs.isEmpty then
            match decodeChunked bs with
            | none => none
            | some dec =>
              some { m3 with reqBody :=
                  sanitizeBody dec (headerGet m3.reqHeaders (bytesOf "Content-Type")) }
          else some m3
        | none => some m3
      match m4opt with
      | none => none
      | some m4 =>
        match lookupLast sections tokResBody with
        | some bs =>
          if ¬bs.isEmpty then
            match decodeChunked bs with
            | none => none
            | some dec =>
              some { m4 with respBody :=
                  sanitizeBody dec (headerGet m4.respHeaders (bytesOf "Content-Type")) }
          else some m4
        | none => some m4

/-- The fixed tunnel placeholder string of `handleConn` (server.go line 207). -/
def tunnelPlaceholder : List Nat := bytesOf "[tunneled: HTTPS traffic, body not inspectable]"

/-- The `tunneled` field computed by `handleConn` (server.go line 203). -/
def recordTunneled (i : InfoModel) : Bool := decide (i.reqMethod = bytesOf "CONNECT")

/-- The `req_body` field computed by `handleConn` (server.go lines 205-208):
the placeholder replaces an empty body exactly when the request is
tunneled. -/
def recordReqBody (i : InfoModel) : List Nat :=
  if recordTunneled i && decide (i.reqBody = []) then tunnelPlaceholder else i.reqBody

/-- First line of a buffer (Go `strings.SplitN(string(buf), "\r\n", 2)[0]`). -/
def firstLineOf : List Nat → List Nat
  | [] => []
  | 13 :: 10 :: _ => []
  | b :: r => firstLineOf r |>.cons b

/-- The OPTIONS dispatch test of `handleConn` (server.go line 184). -/
def isOptionsMsg (buf : List Nat) : Bool :=
  leadsWith (bytesOf "OPTIONS ") (trimSpaceB (firstLineOf buf))

/-- Observable effects of `handleConn` after `readICAPMessage` returns, as a
pair (a log line is appended, response bytes are written): an error or an
empty buffer returns immediately with neither; OPTIONS answers without
logging; anything else logs and answers (server.go lines 177-261). -/
def handleConnEmits (buf : List Nat) (err : Option ReadErr) : Bool × Bool :=
  if err.isSome || buf.isEmpty then (false, false)
  else if isOptionsMsg buf then (false, true)
  else (true, true)

/-! ## Valid ICAP messages and the framing theorem (claim C1) -/

/-- A wire line: ends in the only LF it contains. -/
def lineOK : List Nat → Bool
  | [] => false
  | [b] => b == 10
  | b :: c :: l => !(b == 10) && lineOK (c :: l)

/-- A valid ICAP start or header line: a wire line, not blank, ASCII (where
the byte-wise `toLowerB` agrees with Go's rune-wise `strings.ToLower`). -/
def hdrLineOK (l : List Nat) : Bool :=
  lineOK l && !(trimCRLF l).isEmpty && l.all fun b => decide (b < 128)

/-- A valid encapsulated HTTP header line: a wire line, not blank. -/
def sectLineOK (l : List Nat) : Bool := lineOK l && !(trimCRLF l).isEmpty

/-- Hexadecimal digit bytes. -/
def isHexDigitB (b : Nat) : Bool :=
  (48 ≤ b && b ≤ 57) || (97 ≤ b && b ≤ 102) || (65 ≤ b && b ≤ 70)

/-- A correctly framed chunk: a non-empty all-hex size line whose
`strconv.ParseInt` value is exactly the length of the non-empty data. -/
def chunkOK (c : List Nat × List Nat) : Bool :=
  !c.1.isEmpty && c.1.all isHexDigitB && !c.2.isEmpty &&
    decide (parseHexInt c.1 = some ((c.2.length : Int)))

/-- A block of lines followed by the blank CRLF terminator line. -/
def hdrBlock (lines : List (List Nat)) : List Nat := lines.flatten ++ [13, 10]

/-- Wire bytes of one chunk: size line, CRLF, data, CRLF. -/
def chunkBytes (c : List Nat × List Nat) : List Nat := c.1 ++ [13, 10] ++ c.2 ++ [13, 10]

/-- Wire bytes of a chunked body: the chunks, then the zero chunk `0 CRLF`
and the trailing empty line. -/
def bodyBytes (chunks : List (List Nat × List Nat)) : List Nat :=
  (chunks.map chunkBytes).flatten ++ [48, 13, 10, 13, 10]

/-- The `Encapsulated` value retained by the phase-1 loop over a line list. -/
def encValFold (lines : List (List Nat)) (acc : List Nat) : List Nat :=
  lines.foldl encValStep acc

/-- Shape of a complete valid ICAP message: the ICAP start line and headers,
the encapsulated HTTP request and response header sections, and the chunked
body.  Which trailing components are on the wire is determined by the
`Encapsulated` header, below. -/
structure ICAPMsg where
  hdr : List (List Nat)
  reqL : List (List Nat)
  resL : List (List Nat)
  chunks : List (List Nat × List Nat)

/-- The retained `Encapsulated` header line of a message. -/
def msgEncVal (m : ICAPMsg) : List Nat := encValFold m.hdr []

/-- Whether the chunked-body phase runs: a `req-body` or `res-body` token
without `null-body` (server.go lines 125-129). -/
def msgRunBody (m : ICAPMsg) : Bool :=
  (hasSub (msgEncVal m) tokReqBody || hasSub (msgEncVal m) tokResBody) &&
    !hasSub (msgEncVal m) tokNullBody

/-- The encapsulated request-header section when announced, nothing
otherwise. -/
def msgReqPart (m : ICAPMsg) : List Nat :=
  if hasSub (msgEncVal m) tokReqHdr then hdrBlock m.reqL else []

/-- The encapsulated response-header section when announced, nothing
otherwise. -/
def msgResPart (m : ICAPMsg) : List Nat :=
  if hasSub (msgEncVal m) tokResHdr then hdrBlock m.resL else []

/-- The chunked body when the body phase runs, nothing otherwise. -/
def msgBodyPart (m : ICAPMsg) : List Nat :=
  if msgRunBody m then bodyBytes m.chunks else []

/-- The wire bytes of a valid ICAP message: the header block always, then
exactly the sections its `Encapsulated` header announces. -/
def msgBytes (m : ICAPMsg) : List Nat :=
  hdrBlock m.hdr ++ msgReqPart m ++ msgResPart m ++ msgBodyPart m

/-- Well-formedness of a valid ICAP message: every header line is a
non-blank ASCII wire line, every section line a non-blank wire line, and
every chunk correctly framed. -/
def msgWF (m : ICAPMsg) : Prop :=
  (∀ l ∈ m.hdr, hdrLineOK l = true) ∧ (∀ l ∈ m.reqL, sectLineOK l = true) ∧
    (∀ l ∈ m.resL, sectLineOK l = true) ∧ (∀ c ∈ m.chunks, chunkOK c = true)

theorem lineOK_decomp (l : List Nat) (h : lineOK l = true) :
    ∃ p, l = p ++ [10] ∧ ∀ b ∈ p, b ≠ 10 := by
  induction l with
  | nil => simp [lineOK] at h
  | cons b r ih =>
    rcases r with _ | ⟨c, r2⟩
    · simp only [lineOK, beq_iff_eq] at h
      exact ⟨[], by simp [h], by simp⟩
    · simp only [lineOK, Bool.and_eq_true, Bool.not_eq_true', beq_eq_false_iff_ne, ne_eq] at h
      obtain ⟨p, hp1, hp2⟩ := ih h.2
      refine ⟨b :: p, by simp [hp1], ?_⟩
      intro x hx
      rcases List.mem_cons.mp hx with h1 | h1
      · exact h1 ▸ h.1
      · exact hp2 x h1

theorem lineOK_ne_nil (l : List Nat) (h : lineOK l = true) : l ≠ [] := by
  obtain ⟨p, hp, -⟩ := lineOK_decomp l h
  simp [hp]

theorem readLine_block (l tail : List Nat) (h : lineOK l = true) :
    readLine (l ++ tail) = (l, tail, true) := by
  obtain ⟨p, hp, hp2⟩ := lineOK_decomp l h
  subst hp
  have := readLine_of_line p tail hp2
  simpa [List.append_assoc] using this

theorem hdrBlock_cons (l : List Nat) (ls : List (List Nat)) :
    hdrBlock (l :: ls) = l ++ hdrBlock ls := by
  simp [hdrBlock, List.append_assoc]

theorem readICAPHeadersF_on_block (lines : List (List Nat)) :
    ∀ (fuel : Nat) (rest : List Nat) (total maxSize : Int) (acc : List Nat),
      lines.length < fuel →
      (∀ l ∈ lines, hdrLineOK l = true) →
      total + ((hdrBlock lines).length : Int) ≤ maxSize →
      readICAPHeadersF fuel (hdrBlock lines ++ rest) total maxSize acc =
        ⟨hdrBlock lines, rest, total + ((hdrBlock lines).length : Int),
          encValFold lines acc, none⟩ := by
  induction lines with
  | nil =>
    intro fuel rest total maxSize acc hfuel _ hmax
    cases fuel with
    | zero => omega
    | succ f =>
      have hsz : (hdrBlock ([] : List (List Nat))).length = 2 := by simp [hdrBlock]
      rw [hsz] at hmax ⊢
      have hrl : readLine (hdrBlock [] ++ rest) = ([13, 10], rest, true) := by
        simpa [hdrBlock] using readLine_of_line [13] rest (by simp)
      simp only [readICAPHeadersF, hrl]
      have h1 : ¬total + (([13, 10] : List Nat).length : Int) > maxSize := by
        simp only [List.length_cons, List.length_nil]
        omega
      rw [if_neg h1]
      simp [hdrBlock, encValFold, trimCRLF, trimRightP, trimLeftP, isCRLFByte]
  | cons l ls ih =>
    intro fuel rest total maxSize acc hfuel hok hmax
    cases fuel with
    | zero => omega
    | succ f =>
      have hlok : hdrLineOK l = true := hok l (by simp)
      have hline : lineOK l = true := by
        simp only [hdrLineOK, Bool.and_eq_true] at hlok
        exact hlok.1.1
      have hblank : (trimCRLF l).isEmpty = false := by
        simp only [hdrLineOK, Bool.and_eq_true, Bool.not_eq_true'] at hlok
        exact hlok.1.2
      have hlen : (hdrBlock (l :: ls)).length = l.length + (hdrBlock ls).length := by
        rw [hdrBlock_cons, List.length_append]
      have h1 : ¬total + ((l.length : Int)) > maxSize := by
        rw [hlen] at hmax
        push_cast at hmax ⊢
        omega
      have hf : ls.length < f := by
        simp only [List.length_cons] at hfuel
        omega
      have hrec := ih f rest (total + (l.length : Int)) maxSize (encValStep acc l)
        hf (fun x hx => hok x (by simp [hx]))
        (by rw [hlen] at hmax; push_cast at hmax ⊢; omega)
      rw [hdrBlock_cons, List.append_assoc]
      simp only [readICAPHeadersF, readLine_block l (hdrBlock ls ++ rest) hline]
      rw [if_neg h1]
      simp only [hblank, Bool.false_eq_true, if_false, hrec]
      simp only [HdrOut.mk.injEq, List.append_assoc, encValFold, List.foldl_cons,
        List.length_append, true_and, and_true]
      push_cast
      ring

theorem readHdrSectionF_on_block (lines : List (List Nat)) :
    ∀ (fuel : Nat) (rest : List Nat) (total maxSize : Int),
      lines.length < fuel →
      (∀ l ∈ lines, sectLineOK l = true) →
      total + ((hdrBlock lines).length : Int) ≤ maxSize →
      readHdrSectionF fuel (hdrBlock lines ++ rest) total maxSize =
        ⟨hdrBlock lines, rest, total + ((hdrBlock lines).length : Int), none⟩ := by
  induction lines with
  | nil =>
    intro fuel rest total maxSize hfuel _ hmax
    cases fuel with
    | zero => omega
    | succ f =>
      have hsz : (hdrBlock ([] : List (List Nat))).length = 2 := by simp [hdrBlock]
      rw [hsz] at hmax ⊢
      have hrl : readLine (hdrBlock [] ++ rest) = ([13, 10], rest, true) := by
        simpa [hdrBlock] using readLine_of_line [13] rest (by simp)
      simp only [readHdrSectionF, hrl]
      have h1 : ¬total + (([13, 10] : List Nat).length : Int) > maxSize := by
        simp only [List.length_cons, List.length_nil]
        omega
      rw [if_neg h1]
      simp [hdrBlock, trimCRLF, trimRightP, trimLeftP, isCRLFByte]
  | cons l ls ih =>
    intro fuel rest total maxSize hfuel hok hmax
    cases fuel with
    | zero => omega
    | succ f =>
      have hlok : sectLineOK l = true := hok l (by simp)
      have hline : lineOK l = true := by
        simp only [sectLineOK, Bool.and_eq_true] at hlok
        exact hlok.1
      have hblank : (trimCRLF l).isEmpty = false := by
        simp only [sectLineOK, Bool.and_eq_true, Bool.not_eq_true'] at hlok
        exact hlok.2
      have hlen : (hdrBlock (l :: ls)).length = l.length + (hdrBlock ls).length := by
        rw [hdrBlock_cons, List.length_append]
      have h1 : ¬total + ((l.length : Int)) > maxSize := by
        rw [hlen] at hmax
        push_cast at hmax ⊢
        omega
      have hf : ls.length < f := by
        simp only [List.length_cons] at hfuel
        omega
      have hrec := ih f rest (total + (l.length : Int)) maxSize
        hf (fun x hx => hok x (by simp [hx]))
        (by rw [hlen] at hmax; push_cast at hmax ⊢; omega)
      rw [hdrBlock_cons, List.append_assoc]
      simp only [readHdrSectionF, readLine_block l (hdrBlock ls ++ rest) hline]
      rw [if_neg h1]
      simp only [hblank, Bool.false_eq_true, if_false, hrec]
      simp only [SectOut.mk.injEq, List.append_assoc, List.length_append, true_and, and_true]
      push_cast
      ring

theorem isHexDigit_facts (b : Nat) (h : isHexDigitB b = true) :
    isWS b = false ∧ b ≠ 59 ∧ b ≠ 10 := by
  simp only [isHexDigitB, Bool.or_eq_true, Bool.and_eq_true, decide_eq_true_eq] at h
  refine ⟨?_, by omega, by omega⟩
  simp only [isWS, Bool.or_eq_false_iff, beq_eq_false_iff_ne, ne_eq]
  omega

theorem trimSpaceB_hexline (d : List Nat) (hne : d ≠ [])
    (hd : ∀ b ∈ d, isHexDigitB b = true) :
    trimSpaceB (d ++ [13, 10]) = d := by
  obtain ⟨c, cs, rfl⟩ := List.exists_cons_of_ne_nil hne
  have hcws : isWS c = false := (isHexDigit_facts c (hd c (by simp))).1
  have h1 : trimLeftP isWS ((c :: cs) ++ [13, 10]) = (c :: cs) ++ [13, 10] := by
    simp [trimLeftP, hcws]
  rw [trimSpaceB, h1, trimRightP, List.reverse_append]
  rw [show ([13, 10] : List Nat).reverse = [10, 13] from rfl]
  rcases hrev : (c :: cs).reverse with _ | ⟨e, es⟩
  · exact absurd (congrArg List.length hrev) (by simp)
  · have he : e ∈ c :: cs := by
      have h3 : e ∈ (c :: cs).reverse := by rw [hrev]; simp
      exact List.mem_reverse.mp h3
    have hews : isWS e = false := (isHexDigit_facts e (hd e he)).1
    have h2 : trimLeftP isWS (([10, 13] : List Nat) ++ (e :: es)) = e :: es := by
      show trimLeftP isWS (10 :: 13 :: e :: es) = e :: es
      rw [trimLeftP, if_pos (show isWS 10 = true from rfl)]
      rw [trimLeftP, if_pos (show isWS 13 = true from rfl)]
      rw [trimLeftP, if_neg (by simp [hews])]
    rw [h2, ← hrev, List.reverse_reverse]

theorem takeUntilSemi_of_all (d : List Nat) (h : ∀ b ∈ d, b ≠ 59) :
    takeUntilSemi d = d := by
  induction d with
  | nil => rfl
  | cons b r ih =>
    have hb : b ≠ 59 := h b (by simp)
    simp [takeUntilSemi, hb, ih fun x hx => h x (by simp [hx])]

theorem bodyBytes_cons (c : List Nat × List Nat) (cs : List (List Nat × List Nat)) :
    bodyBytes (c :: cs) = chunkBytes c ++ bodyBytes cs := by
  simp [bodyBytes, List.append_assoc]

theorem readChunkLoopF_on_body (chunks : List (List Nat × List Nat)) :
    ∀ (fuel : Nat) (rest : List Nat) (total maxSize : Int),
      chunks.length < fuel →
      (∀ c ∈ chunks, chunkOK c = true) →
      total + ((bodyBytes chunks).length : Int) ≤ maxSize →
      readChunkLoopF fuel (bodyBytes chunks ++ rest) total maxSize =
        some ⟨bodyBytes chunks, rest, total + ((bodyBytes chunks).length : Int) - 2, none⟩ := by
  induction chunks with
  | nil =>
    intro fuel rest total maxSize hfuel _ _
    cases fuel with
    | zero => omega
    | succ f =>
      have hrl : readLine (bodyBytes [] ++ rest) = ([48, 13, 10], [13, 10] ++ rest, true) := by
        have h0 := readLine_of_line [48, 13] ([13, 10] ++ rest) (by simp)
        simpa [bodyBytes] using h0
      have htr : readLine (([13, 10] : List Nat) ++ rest) = ([13, 10], rest, true) := by
        simpa using readLine_of_line [13] rest (by simp)
      simp only [readChunkLoopF, hrl]
      have hsz : takeUntilSemi (trimSpaceB [48, 13, 10]) = [48] := rfl
      have hph : parseHexInt [48] = some 0 := rfl
      rw [hsz, hph]
      simp only [htr]
      simp [bodyBytes, SectOut.mk.injEq]
      omega
  | cons c cs ih =>
    intro fuel rest total maxSize hfuel hok hmax
    cases fuel with
    | zero => omega
    | succ f =>
      have hcok : chunkOK c = true := hok c (by simp)
      simp only [chunkOK, Bool.and_eq_true, Bool.not_eq_true', List.isEmpty_eq_false,
        List.all_eq_true, decide_eq_true_eq] at hcok
      obtain ⟨⟨⟨hne1, hhex⟩, hne2⟩, hparse⟩ := hcok
      have hlen1 : (bodyBytes (c :: cs)).length
          = c.1.length + 2 + (c.2.length + 2) + (bodyBytes cs).length := by
        rw [bodyBytes_cons, List.length_append]
        simp [chunkBytes]
        omega
      have hrl : readLine (bodyBytes (c :: cs) ++ rest)
          = (c.1 ++ [13, 10], c.2 ++ [13, 10] ++ (bodyBytes cs ++ rest), true) := by
        have hmem : ∀ b ∈ c.1 ++ [13], b ≠ 10 := by
          intro b hb
          rcases List.mem_append.mp hb with h1 | h1
          · exact (isHexDigit_facts b (hhex b h1)).2.2
          · simp at h1
            omega
        have h0 := readLine_of_line (c.1 ++ [13]) (c.2 ++ [13, 10] ++ (bodyBytes cs ++ rest)) hmem
        rw [bodyBytes_cons, chunkBytes]
        simp only [List.append_assoc] at h0 ⊢
        simpa using h0
      have hsz : takeUntilSemi (trimSpaceB (c.1 ++ [13, 10])) = c.1 := by
        rw [trimSpaceB_hexline c.1 hne1 hhex]
        exact takeUntilSemi_of_all c.1 fun b hb => (isHexDigit_facts b (hhex b hb)).2.1
      have hne0 : ¬((c.2.length : Int) = 0) := by
        have h0 : 0 < c.2.length := List.length_pos.mpr hne2
        omega
      have hbound : ¬(total + ((c.1 ++ [13, 10] : List Nat).length : Int) + (c.2.length : Int) > maxSize) := by
        rw [hlen1] at hmax
        simp only [List.length_append, List.length_cons, List.length_nil]
        push_cast at hmax ⊢
        omega
      have hkn : (((c.2.length : Nat) : Int) + 2).toNat = (c.2 ++ [13, 10]).length := by
        simp only [List.length_append, List.length_cons, List.length_nil]
        omega
      have htake : (c.2 ++ [13, 10] ++ (bodyBytes cs ++ rest)).take ((c.2 ++ [13, 10]).length)
          = c.2 ++ [13, 10] := List.take_left (c.2 ++ [13, 10]) (bodyBytes cs ++ rest)
      have hdrop : (c.2 ++ [13, 10] ++ (bodyBytes cs ++ rest)).drop ((c.2 ++ [13, 10]).length)
          = bodyBytes cs ++ rest := List.drop_left (c.2 ++ [13, 10]) (bodyBytes cs ++ rest)
      have hf : cs.length < f := by
        simp only [List.length_cons] at hfuel
        omega
      have hrec := ih f rest (total + ((c.1 ++ [13, 10] : List Nat).length : Int)
          + ((c.2 ++ [13, 10] : List Nat).length : Int)) maxSize hf
        (fun x hx => hok x (by simp [hx]))
        (by
          rw [hlen1] at hmax
          simp only [List.length_append, List.length_cons, List.length_nil]
          push_cast at hmax ⊢
          omega)
      simp only [readChunkLoopF, hrl, hsz, hparse]
      rw [if_neg hne0, if_neg hbound,
        if_neg (by omega : ¬(((c.2.length : Nat) : Int) + 2 < 0)), hkn, htake, hdrop]
      rw [if_neg (by omega : ¬(c.2 ++ [13, 10] : List Nat).length < (c.2 ++ [13, 10] : List Nat).length)]
      simp only [hrec]
      rw [if_neg (show ¬(true = false) by simp)]
      rw [bodyBytes_cons, chunkBytes]
      simp only [Option.some.injEq, SectOut.mk.injEq, List.length_append, List.append_assoc,
        true_and, and_true]
      push_cast
      ring


theorem length_le_flatten_length (lines : List (List Nat)) (h : ∀ l ∈ lines, l ≠ []) :
    lines.length ≤ lines.flatten.length := by
  induction lines with
  | nil => simp
  | cons l ls ih =>
    have hl : 0 < l.length := List.length_pos.mpr (h l (by simp))
    have h2 := ih fun x hx => h x (by simp [hx])
    simp only [List.flatten_cons, List.length_append, List.length_cons]
    omega

theorem length_le_hdrBlock (lines : List (List Nat)) (h : ∀ l ∈ lines, l ≠ []) :
    lines.length ≤ (hdrBlock lines).length := by
  have h2 := length_le_flatten_length lines h
  simp only [hdrBlock, List.length_append]
  omega

theorem length_le_bodyBytes (chunks : List (List Nat × List Nat)) :
    chunks.length ≤ (bodyBytes chunks).length := by
  have h1 : ∀ c ∈ chunks.map chunkBytes, c ≠ [] := by
    intro c hc
    obtain ⟨x, _, rfl⟩ := List.mem_map.mp hc
    simp [chunkBytes]
  have h2 := length_le_flatten_length (chunks.map chunkBytes) h1
  simp only [List.length_map] at h2
  simp only [bodyBytes, List.length_append]
  omega

theorem hasSub_nil_tok (t : List Nat) (ht : t ≠ []) : hasSub [] t = false := by
  cases t with
  | nil => exact absurd rfl ht
  | cons b r => rfl

theorem readICAPPhases123_on_msg (m : ICAPMsg) (suffix : List Nat) (maxSize : Int)
    (hhdr : ∀ l ∈ m.hdr, hdrLineOK l = true)
    (hreq : ∀ l ∈ m.reqL, sectLineOK l = true)
    (hres : ∀ l ∈ m.resL, sectLineOK l = true)
    (hmax : ((msgBytes m).length : Int) ≤ maxSize) :
    readICAPPhases123 (msgBytes m ++ suffix) maxSize =
      ⟨hdrBlock m.hdr ++ msgReqPart m ++ msgResPart m, msgBodyPart m ++ suffix,
        (((hdrBlock m.hdr ++ msgReqPart m ++ msgResPart m).length : Nat) : Int),
        msgEncVal m, none⟩ := by
  have hlenM : (msgBytes m).length = (hdrBlock m.hdr).length + (msgReqPart m).length
      + (msgResPart m).length + (msgBodyPart m).length := by
    simp [msgBytes, List.length_append]
    omega
  have hmax2 : ((hdrBlock m.hdr).length : Int) + (msgReqPart m).length
      + (msgResPart m).length + (msgBodyPart m).length ≤ maxSize := by
    have h0 := hmax
    rw [hlenM] at h0
    push_cast at h0
    exact h0
  have hhdrne : ∀ l ∈ m.hdr, l ≠ [] := by
    intro l hl
    have h2 : hdrLineOK l = true := hhdr l hl
    simp only [hdrLineOK, Bool.and_eq_true] at h2
    exact lineOK_ne_nil l h2.1.1
  have hstream : msgBytes m ++ suffix
      = hdrBlock m.hdr ++ (msgReqPart m ++ (msgResPart m ++ (msgBodyPart m ++ suffix))) := by
    simp [msgBytes, List.append_assoc]
  have hp1 := readICAPHeadersF_on_block m.hdr
      ((hdrBlock m.hdr ++ (msgReqPart m ++ (msgResPart m ++ (msgBodyPart m ++ suffix)))).length + 1)
      (msgReqPart m ++ (msgResPart m ++ (msgBodyPart m ++ suffix))) 0 maxSize []
      (by
        have h2 := length_le_hdrBlock m.hdr hhdrne
        simp only [List.length_append]
        omega)
      hhdr
      (by omega)
  rw [readICAPPhases123, hstream, readICAPHeaders, hp1]
  simp only [zero_add]
  rw [show encValFold m.hdr [] = msgEncVal m from rfl]
  by_cases hEV : (msgEncVal m).isEmpty
  · -- no Encapsulated header: early return, and no later sections on the wire
    have hEVn : msgEncVal m = [] := by simpa using hEV
    have hRf : hasSub (msgEncVal m) tokReqHdr = false := by
      rw [hEVn]; exact hasSub_nil_tok _ (by decide)
    have hSf : hasSub (msgEncVal m) tokResHdr = false := by
      rw [hEVn]; exact hasSub_nil_tok _ (by decide)
    have hBf : msgRunBody m = false := by
      rw [msgRunBody, hEVn]
      rw [hasSub_nil_tok _ (show tokReqBody ≠ [] by decide)]
      rw [hasSub_nil_tok _ (show tokResBody ≠ [] by decide)]
      rfl
    simp [hEV, msgReqPart, msgResPart, msgBodyPart, hRf, hSf, hBf]
  · simp only [hEV, Bool.false_eq_true, if_false]
    by_cases hR : hasSub (msgEncVal m) tokReqHdr
    · -- req-hdr announced: phase 2 consumes its block
      have hRpart : msgReqPart m = hdrBlock m.reqL := by simp [msgReqPart, hR]
      have hreqne : ∀ l ∈ m.reqL, l ≠ [] := by
        intro l hl
        have h2 : sectLineOK l = true := hreq l hl
        simp only [sectLineOK, Bool.and_eq_true] at h2
        exact lineOK_ne_nil l h2.1
      have hp2 := readHdrSectionF_on_block m.reqL
          ((hdrBlock m.reqL ++ (msgResPart m ++ (msgBodyPart m ++ suffix))).length + 1)
          (msgResPart m ++ (msgBodyPart m ++ suffix))
          ((hdrBlock m.hdr).length : Int) maxSize
          (by
            have h2 := length_le_hdrBlock m.reqL hreqne
            simp only [List.length_append]
            omega)
          hreq
          (by rw [← hRpart]; omega)
      rw [hRpart]
      simp only [hR, if_true, readHdrSection, hp2]
      by_cases hS : hasSub (msgEncVal m) tokResHdr
      · have hSpart : msgResPart m = hdrBlock m.resL := by simp [msgResPart, hS]
        have hresne : ∀ l ∈ m.resL, l ≠ [] := by
          intro l hl
          have h2 : sectLineOK l = true := hres l hl
          simp only [sectLineOK, Bool.and_eq_true] at h2
          exact lineOK_ne_nil l h2.1
        have hp3 := readHdrSectionF_on_block m.resL
            ((hdrBlock m.resL ++ (msgBodyPart m ++ suffix)).length + 1)
            (msgBodyPart m ++ suffix)
            (((hdrBlock m.hdr).length : Int) + ((hdrBlock m.reqL).length : Int)) maxSize
            (by
              have h2 := length_le_hdrBlock m.resL hresne
              simp only [List.length_append]
              omega)
            hres
            (by rw [← hSpart, ← hRpart]; omega)
        rw [hSpart]
        simp only [hS, if_true, readHdrSection, hp3]
        simp only [HdrOut.mk.injEq, List.append_assoc, List.length_append, true_and, and_true]
        push_cast
        ring
      · have hSpart : msgResPart m = [] := by simp [msgResPart, hS]
        rw [hSpart]
        simp only [hS, Bool.false_eq_true, if_false]
        simp only [HdrOut.mk.injEq, List.append_assoc, List.length_append, List.nil_append,
          List.append_nil, true_and, and_true]
        push_cast
        ring
    · -- no req-hdr token: phase 2 skipped
      have hRpart : msgReqPart m = [] := by simp [msgReqPart, hR]
      rw [hRpart]
      simp only [hR, Bool.false_eq_true, if_false]
      by_cases hS : hasSub (msgEncVal m) tokResHdr
      · have hSpart : msgResPart m = hdrBlock m.resL := by simp [msgResPart, hS]
        have hresne : ∀ l ∈ m.resL, l ≠ [] := by
          intro l hl
          have h2 : sectLineOK l = true := hres l hl
          simp only [sectLineOK, Bool.and_eq_true] at h2
          exact lineOK_ne_nil l h2.1
        have hp3 := readHdrSectionF_on_block m.resL
            ((hdrBlock m.resL ++ (msgBodyPart m ++ suffix)).length + 1)
            (msgBodyPart m ++ suffix)
            ((hdrBlock m.hdr).length : Int) maxSize
            (by
              have h2 := length_le_hdrBlock m.resL hresne
              simp only [List.length_append]
              omega)
            hres
            (by rw [← hSpart]; omega)
        rw [hSpart]
        simp only [hS, if_true, readHdrSection, List.nil_append, hp3]
        simp only [HdrOut.mk.injEq, List.append_assoc, List.length_append, List.append_nil,
          List.nil_append, true_and, and_true]
        push_cast
        ring
      · have hSpart : msgResPart m = [] := by simp [msgResPart, hS]
        rw [hSpart]
        simp only [hS, Bool.false_eq_true, if_false]
        simp [HdrOut.mk.injEq, List.append_assoc]


/-- Claim C1 (framing idempotence): a byte stream that begins with a
complete valid ICAP message followed by arbitrary suffix bytes is read by
`readICAPMessage`, with `maxSize` at least the message length, as exactly
the message bytes, with no error (and in particular no modelled panic),
consuming none of the suffix. -/
theorem readICAPMessage_framing (m : ICAPMsg) (suffix : List Nat) (maxSize : Int)
    (hwf : msgWF m) (hmax : ((msgBytes m).length : Int) ≤ maxSize) :
    readICAPMessage (msgBytes m ++ suffix) maxSize = some (msgBytes m, suffix, none) := by
  obtain ⟨hhdr, hreq, hres, hchunks⟩ := hwf
  have hp := readICAPPhases123_on_msg m suffix maxSize hhdr hreq hres hmax
  simp only [readICAPMessage]
  rw [hp]
  by_cases hEV : (msgEncVal m).isEmpty
  · have hEVn : msgEncVal m = [] := by simpa using hEV
    have hRf : msgReqPart m = [] := by
      rw [msgReqPart, hEVn, hasSub_nil_tok _ (show tokReqHdr ≠ [] by decide)]
      rfl
    have hSf : msgResPart m = [] := by
      rw [msgResPart, hEVn, hasSub_nil_tok _ (show tokResHdr ≠ [] by decide)]
      rfl
    have hBf : msgBodyPart m = [] := by
      rw [msgBodyPart, msgRunBody, hEVn]
      rw [hasSub_nil_tok _ (show tokReqBody ≠ [] by decide)]
      rw [hasSub_nil_tok _ (show tokResBody ≠ [] by decide)]
      rfl
    simp [hEV, msgBytes, hRf, hSf, hBf]
  · simp only [hEV, Bool.false_eq_true, if_false]
    have hcond : ((hasSub (msgEncVal m) tokReqBody || hasSub (msgEncVal m) tokResBody)
        && !hasSub (msgEncVal m) tokNullBody) = msgRunBody m := rfl
    rw [hcond]
    by_cases hB : msgRunBody m
    · have hBpart : msgBodyPart m = bodyBytes m.chunks := by simp [msgBodyPart, hB]
      have hlenM : (msgBytes m).length
          = (hdrBlock m.hdr ++ msgReqPart m ++ msgResPart m).length + (msgBodyPart m).length := by
        simp [msgBytes, List.length_append]
        omega
      have hc := readChunkLoopF_on_body m.chunks
          ((bodyBytes m.chunks ++ suffix).length + 1) suffix
          (((hdrBlock m.hdr ++ msgReqPart m ++ msgResPart m).length : Nat) : Int) maxSize
          (by
            have h2 := length_le_bodyBytes m.chunks
            simp only [List.length_append]
            omega)
          hchunks
          (by
            rw [hlenM, hBpart] at hmax
            push_cast at hmax ⊢
            omega)
      rw [hBpart]
      simp only [hB, if_true, readChunkLoop, hc]
      simp [msgBytes, hBpart, List.append_assoc]
    · have hBpart : msgBodyPart m = [] := by simp [msgBodyPart, hB]
      simp only [hB, Bool.false_eq_true, if_false]
      simp [msgBytes, hBpart, List.append_assoc]


/-- Concrete valid REQMOD message with request headers and a chunked body,
used to witness the framing theorem. -/
def c1msg : ICAPMsg :=
  ⟨[bytesOf "REQMOD icap://h/s ICAP/1.0\r\n", bytesOf "Encapsulated: req-hdr=0, req-body=19\r\n"],
   [bytesOf "POST / HTTP/1.1\r\n"], [], [(bytesOf "5", bytesOf "hello")]⟩

set_option maxRecDepth 4000 in
theorem readICAPMessage_framing_witness :
    msgWF c1msg ∧ ((msgBytes c1msg).length : Int) ≤ 1000 ∧
    readICAPMessage (msgBytes c1msg ++ bytesOf "SUFFIX") 1000
      = some (msgBytes c1msg, bytesOf "SUFFIX", none) :=
  ⟨⟨by decide, by decide, by decide, by decide⟩, by decide,
    readICAPMessage_framing c1msg (bytesOf "SUFFIX") 1000
      ⟨by decide, by decide, by decide, by decide⟩ (by decide)⟩

/-! ## The size-ceiling error contract (claim C3) -/

theorem readHdrSectionF_tooLarge_iff :
    ∀ (fuel : Nat) (s : List Nat) (total maxSize : Int), s.length < fuel →
      ((readHdrSectionF fuel s total maxSize).err = some ReadErr.tooLarge ↔
        maxSize < (readHdrSectionF fuel s total maxSize).total) := by
  intro fuel
  induction fuel with
  | zero => intro s total maxSize hf; omega
  | succ f ih =>
    intro s total maxSize hf
    by_cases h1 : total + ((readLine s).1.length : Int) > maxSize
    · simp [readHdrSectionF, h1]
    · by_cases h2 : (readLine s).2.2 = false
      · simp [readHdrSectionF, h1, h2]
      · by_cases h3 : (trimCRLF (readLine s).1).isEmpty
        · simp [readHdrSectionF, h1, h2, h3]
        · have hrest : (readLine s).2.1.length < f := by
            have hlt := readLine_rest_lt s (by
              revert h2
              cases (readLine s).2.2 <;> simp)
            omega
          simp only [readHdrSectionF, if_neg h1, if_neg h2, h3, Bool.false_eq_true, if_false]
          exact ih (readLine s).2.1 (total + ((readLine s).1.length : Int)) maxSize hrest

theorem readICAPHeadersF_tooLarge_iff :
    ∀ (fuel : Nat) (s : List Nat) (total maxSize : Int) (acc : List Nat), s.length < fuel →
      ((readICAPHeadersF fuel s total maxSize acc).err = some ReadErr.tooLarge ↔
        maxSize < (readICAPHeadersF fuel s total maxSize acc).total) := by
  intro fuel
  induction fuel with
  | zero => intro s total maxSize acc hf; omega
  | succ f ih =>
    intro s total maxSize acc hf
    by_cases h1 : total + ((readLine s).1.length : Int) > maxSize
    · simp [readICAPHeadersF, h1]
    · by_cases h2 : (readLine s).2.2 = false
      · simp [readICAPHeadersF, h1, h2]
      · by_cases h3 : (trimCRLF (readLine s).1).isEmpty
        · simp [readICAPHeadersF, h1, h2, h3]
        · have hrest : (readLine s).2.1.length < f := by
            have hlt := readLine_rest_lt s (by
              revert h2
              cases (readLine s).2.2 <;> simp)
            omega
          simp only [readICAPHeadersF, if_neg h1, if_neg h2, h3, Bool.false_eq_true, if_false]
          exact ih (readLine s).2.1 (total + ((readLine s).1.length : Int)) maxSize
            (encValStep acc (readLine s).1) hrest

theorem readChunkLoopF_err_cases :
    ∀ (fuel : Nat) (s : List Nat) (total maxSize : Int) (out : SectOut),
      readChunkLoopF fuel s total maxSize = some out →
      out.err = none ∨ out.err = some ReadErr.eof := by
  intro fuel
  induction fuel with
  | zero =>
    intro s total maxSize out h
    right
    simp only [readChunkLoopF, Option.some.injEq] at h
    rw [← h]
  | succ f ih =>
    intro s total maxSize out h
    by_cases h2 : (readLine s).2.2 = false
    · right
      simp only [readChunkLoopF, if_pos h2, Option.some.injEq] at h
      rw [← h]
    · rcases hph : parseHexInt (takeUntilSemi (trimSpaceB (readLine s).1)) with _ | size
      · left
        simp only [readChunkLoopF, if_neg h2, hph, Option.some.injEq] at h
        rw [← h]
      · by_cases h0 : size = 0
        · left
          simp only [readChunkLoopF, if_neg h2, hph, if_pos h0, Option.some.injEq] at h
          rw [← h]
        · by_cases hb : total + ((readLine s).1.length : Int) + size > maxSize
          · left
            simp only [readChunkLoopF, if_neg h2, hph, if_neg h0, if_pos hb,
              Option.some.injEq] at h
            rw [← h]
          · by_cases hneg : size + 2 < 0
            · simp only [readChunkLoopF, if_neg h2, hph, if_neg h0, if_neg hb, if_pos hneg] at h
              exact Option.noConfusion h
            · by_cases hshort : ((readLine s).2.1.take (size + 2).toNat).length < (size + 2).toNat
              · left
                simp only [readChunkLoopF, if_neg h2, hph, if_neg h0, if_neg hb, if_neg hneg,
                  if_pos hshort, Option.some.injEq] at h
                rw [← h]
              · simp only [readChunkLoopF, if_neg h2, hph, if_neg h0, if_neg hb, if_neg hneg,
                  if_neg hshort] at h
                rcases hr : readChunkLoopF f ((readLine s).2.1.drop (size + 2).toNat)
                    (total + ((readLine s).1.length : Int)
                      + (((readLine s).2.1.take (size + 2).toNat).length : Int)) maxSize
                  with _ | r
                · rw [hr] at h
                  simp at h
                · rw [hr] at h
                  simp only [Option.some.injEq] at h
                  rw [← h]
                  exact ih _ _ _ r hr

theorem readHdrSection_tooLarge_iff (s : List Nat) (total maxSize : Int) :
    (readHdrSection s total maxSize).err = some ReadErr.tooLarge ↔
      maxSize < (readHdrSection s total maxSize).total :=
  readHdrSectionF_tooLarge_iff (s.length + 1) s total maxSize (by omega)

theorem readICAPPhases123_tooLarge_iff (s : List Nat) (maxSize : Int) :
    (readICAPPhases123 s maxSize).err = some ReadErr.tooLarge ↔
      maxSize < (readICAPPhases123 s maxSize).total := by
  have i1 := readICAPHeadersF_tooLarge_iff (s.length + 1) s 0 maxSize [] (by omega)
  simp only [readICAPPhases123, readICAPHeaders]
  rcases herr1 : (readICAPHeadersF (s.length + 1) s 0 maxSize []).err with _ | e
  · rw [herr1] at i1
    simp only [herr1]
    by_cases hev : (readICAPHeadersF (s.length + 1) s 0 maxSize []).encVal.isEmpty
    · simp only [hev, if_true]
      simpa using i1
    · simp only [hev, Bool.false_eq_true, if_false]
      by_cases hR : hasSub (readICAPHeadersF (s.length + 1) s 0 maxSize []).encVal tokReqHdr
      · simp only [hR, if_true]
        have i2 := readHdrSection_tooLarge_iff
          (readICAPHeadersF (s.length + 1) s 0 maxSize []).rest
          (readICAPHeadersF (s.length + 1) s 0 maxSize []).total maxSize
        rcases herr2 : (readHdrSection (readICAPHeadersF (s.length + 1) s 0 maxSize []).rest
            (readICAPHeadersF (s.length + 1) s 0 maxSize []).total maxSize).err with _ | e2
        · rw [herr2] at i2
          simp only [herr2]
          by_cases hS : hasSub (readICAPHeadersF (s.length + 1) s 0 maxSize []).encVal tokResHdr
          · simp only [hS, if_true]
            exact readHdrSection_tooLarge_iff _ _ maxSize
          · simp only [hS, Bool.false_eq_true, if_false]
            simpa using i2
        · rw [herr2] at i2
          simp only [herr2]
          cases e2
          · constructor
            · intro h
              exact absurd h (by simp)
            · intro h
              exact absurd (i2.mpr h) (by simp)
          · simpa using i2
      · simp only [hR, Bool.false_eq_true, if_false]
        by_cases hS : hasSub (readICAPHeadersF (s.length + 1) s 0 maxSize []).encVal tokResHdr
        · simp only [hS, if_true]
          exact readHdrSection_tooLarge_iff _ _ maxSize
        · simp only [hS, Bool.false_eq_true, if_false]
          simpa using i1
  · rw [herr1] at i1
    simp only [herr1]
    cases e
    · constructor
      · intro h
        exact absurd h (by simp)
      · intro h
        exact absurd (i1.mpr h) (by simp)
    · simpa using i1

/-- Claim C3 (size-ceiling error contract): `readICAPMessage` reports
`MessageTooLarge` exactly when one of phases 1-3 pushed the cumulative total
over `maxSize` (and then hands back the phase output as accumulated so far),
while the chunked phase never produces that error - whenever it returns, its
only possible error is an underlying read error (its other exit is the
modelled runtime panic on a size line parsing below -2, which is a crash,
not an error return). -/
theorem readICAPMessage_size_error_contract (s : List Nat) (maxSize : Int) :
    ((∃ buf rest : List Nat,
        readICAPMessage s maxSize = some (buf, rest, some ReadErr.tooLarge)) ↔
      (readICAPPhases123 s maxSize).err = some ReadErr.tooLarge)
    ∧ ((readICAPPhases123 s maxSize).err = some ReadErr.tooLarge ↔
      maxSize < (readICAPPhases123 s maxSize).total)
    ∧ (∀ s2 : List Nat, ∀ total : Int, ∀ out : SectOut,
        readChunkLoop s2 total maxSize = some out →
        out.err = none ∨ out.err = some ReadErr.eof)
    ∧ ((readICAPPhases123 s maxSize).err = some ReadErr.tooLarge →
        readICAPMessage s maxSize = some ((readICAPPhases123 s maxSize).buf,
          (readICAPPhases123 s maxSize).rest, some ReadErr.tooLarge)) := by
  have hchunk : ∀ s2 : List Nat, ∀ total : Int, ∀ out : SectOut,
      readChunkLoop s2 total maxSize = some out →
      out.err = none ∨ out.err = some ReadErr.eof := by
    intro s2 total out hout
    exact readChunkLoopF_err_cases (s2.length + 1) s2 total maxSize out hout
  have himp : (readICAPPhases123 s maxSize).err = some ReadErr.tooLarge →
      readICAPMessage s maxSize = some ((readICAPPhases123 s maxSize).buf,
        (readICAPPhases123 s maxSize).rest, some ReadErr.tooLarge) := by
    intro h
    simp only [readICAPMessage, h]
  refine ⟨?_, readICAPPhases123_tooLarge_iff s maxSize, hchunk, himp⟩
  constructor
  · rintro ⟨buf, rest, hout⟩
    rcases herr : (readICAPPhases123 s maxSize).err with _ | e
    · exfalso
      simp only [readICAPMessage, herr] at hout
      by_cases hev : (readICAPPhases123 s maxSize).encVal.isEmpty
      · simp [hev] at hout
      · simp only [hev, Bool.false_eq_true, if_false] at hout
        by_cases hbody : ((hasSub (readICAPPhases123 s maxSize).encVal tokReqBody
            || hasSub (readICAPPhases123 s maxSize).encVal tokResBody)
            && !hasSub (readICAPPhases123 s maxSize).encVal tokNullBody) = true
        · simp only [hbody, if_true] at hout
          rcases hc : readChunkLoop (readICAPPhases123 s maxSize).rest
              (readICAPPhases123 s maxSize).total maxSize with _ | c
          · rw [hc] at hout
            simp at hout
          · rw [hc] at hout
            simp only [Option.some.injEq, Prod.mk.injEq] at hout
            rcases hchunk _ _ c hc with h1 | h1 <;>
              simp [hout.2.2] at h1
        · simp only [hbody, if_false] at hout
          simp at hout
    · simp only [readICAPMessage, herr, Option.some.injEq, Prod.mk.injEq] at hout
      rw [hout.2.2]
  · intro h
    exact ⟨(readICAPPhases123 s maxSize).buf, (readICAPPhases123 s maxSize).rest, himp h⟩

theorem readICAPMessage_size_error_contract_witness :
    (readICAPPhases123 (bytesOf "REQMOD i ICAP/1.0\r\n\r\n") 5).err = some ReadErr.tooLarge ∧
    readICAPMessage (bytesOf "REQMOD i ICAP/1.0\r\n\r\n") 5
      = some ((readICAPPhases123 (bytesOf "REQMOD i ICAP/1.0\r\n\r\n") 5).buf,
        (readICAPPhases123 (bytesOf "REQMOD i ICAP/1.0\r\n\r\n") 5).rest,
        some ReadErr.tooLarge) :=
  ⟨by decide, (readICAPMessage_size_error_contract (bytesOf "REQMOD i ICAP/1.0\r\n\r\n") 5).2.2.2 (by decide)⟩


/-! ## Offset round-trip of the decomposer (claim C4) -/

/-- Go `strings.Join(parts, sep)`. -/
def joinSep (sep : List Nat) : List (List Nat) → List Nat
  | [] => []
  | [x] => x
  | x :: y :: r => x ++ sep ++ joinSep sep (y :: r)

/-- One declared section: a token name, the decimal digits of its declared
offset, and the section bytes. -/
structure EncSec where
  name : List Nat
  offDigits : List Nat
  data : List Nat
deriving DecidableEq

/-- A well-formed section name: non-empty, lower-case letters, digits or
hyphens only, and not the skipped `null-body`. -/
def nameOKB (n : List Nat) : Bool :=
  !n.isEmpty && (n.all fun b => (97 ≤ b && b ≤ 122) || (48 ≤ b && b ≤ 57) || b == 45)
    && decide (n ≠ tokNullBodyName)

/-- Non-empty decimal digit string. -/
def decDigitsOK (d : List Nat) : Bool := !d.isEmpty && (d.all fun b => 48 ≤ b && b ≤ 57)

/-- The byte string of one `name=offset` token. -/
def tokStr (e : EncSec) : List Nat := e.name ++ 61 :: e.offDigits

/-- The rendered `Encapsulated` header value of a declared layout. -/
def renderEnc (secs : List EncSec) : List Nat := joinSep (bytesOf ", ") (secs.map tokStr)

/-- The declared offsets name, in order, the positions at which the sections
are written consecutively starting at `off`. -/
def layoutOKb : Nat → List EncSec → Bool
  | _, [] => true
  | off, e :: rest => decide (decVal e.offDigits = off) && layoutOKb (off + e.data.length) rest

/-- The buffer formed by writing the declared sections at their offsets. -/
def secsData (secs : List EncSec) : List Nat := (secs.map EncSec.data).flatten

/-- The `(name, offset)` pairs of sections laid out consecutively from `off`. -/
def offsList (off : Nat) : List (List Nat × List Nat) → List (List Nat × Int)
  | [] => []
  | p :: r => (p.1, (off : Int)) :: offsList (off + p.2.length) r

theorem trimLeftP_id (p : Nat → Bool) (l : List Nat) (h : ∀ b ∈ l, p b = false) :
    trimLeftP p l = l := by
  cases l with
  | nil => rfl
  | cons b r => simp [trimLeftP, h b (by simp)]

theorem trimSpaceB_id (l : List Nat) (h : ∀ b ∈ l, isWS b = false) :
    trimSpaceB l = l := by
  rw [trimSpaceB, trimLeftP_id isWS l h, trimRightP, trimLeftP_id]
  · exact List.reverse_reverse l
  · intro b hb
    exact h b (List.mem_reverse.mp hb)

theorem toLowerB_id (l : List Nat) (h : ∀ b ∈ l, ¬(65 ≤ b ∧ b ≤ 90)) :
    toLowerB l = l := by
  induction l with
  | nil => rfl
  | cons b r ih =>
    have hb := h b (by simp)
    have hcond : (decide (65 ≤ b) && decide (b ≤ 90)) = false := by
      simp only [Bool.and_eq_false_iff, decide_eq_false_iff_not]
      omega
    have ih2 := ih fun x hx => h x (by simp [hx])
    simp only [toLowerB, List.map_cons] at ih2 ⊢
    rw [hcond]
    simp only [Bool.false_eq_true, if_false]
    rw [ih2]

theorem takeDecDigits_all (d : List Nat) (h : ∀ b ∈ d, 48 ≤ b ∧ b ≤ 57) :
    takeDecDigits d = d := by
  induction d with
  | nil => rfl
  | cons b r ih =>
    have hb := h b (by simp)
    have : ((48 ≤ b && b ≤ 57) : Bool) = true := by
      simp only [Bool.and_eq_true, decide_eq_true_eq]
      omega
    simp [takeDecDigits, this, ih fun x hx => h x (by simp [hx])]

theorem breakAtByte_append (c : Nat) (pre post : List Nat) (h : ∀ b ∈ pre, b ≠ c) :
    breakAtByte c (pre ++ c :: post) = (pre, some post) := by
  induction pre with
  | nil => simp [breakAtByte]
  | cons b r ih =>
    have hb : b ≠ c := h b (by simp)
    simp [breakAtByte, hb, ih fun x hx => h x (by simp [hx])]

theorem splitOnByte_no (c : Nat) (t : List Nat) (h : ∀ b ∈ t, b ≠ c) :
    splitOnByte c t = [t] := by
  induction t with
  | nil => rfl
  | cons b r ih =>
    have hb : b ≠ c := h b (by simp)
    simp only [splitOnByte, if_neg hb, ih fun x hx => h x (by simp [hx])]

theorem splitOnByte_append (c : Nat) (t rest : List Nat) (h : ∀ b ∈ t, b ≠ c) :
    splitOnByte c (t ++ c :: rest) = t :: splitOnByte c rest := by
  induction t with
  | nil => simp [splitOnByte]
  | cons b r ih =>
    have hb : b ≠ c := h b (by simp)
    have h2 := ih fun x hx => h x (by simp [hx])
    simp only [List.cons_append, splitOnByte, if_neg hb, List.append_eq, h2]


theorem nameOKB_facts (n : List Nat) (h : nameOKB n = true) :
    n ≠ [] ∧ (∀ b ∈ n, isWS b = false ∧ b ≠ 44 ∧ b ≠ 61 ∧ ¬(65 ≤ b ∧ b ≤ 90))
      ∧ n ≠ tokNullBodyName := by
  simp only [nameOKB, Bool.and_eq_true, Bool.not_eq_true', List.isEmpty_eq_false,
    List.all_eq_true, decide_eq_true_eq] at h
  refine ⟨h.1.1, ?_, h.2⟩
  intro b hb
  have hcl := h.1.2 b hb
  simp only [Bool.or_eq_true, Bool.and_eq_true, decide_eq_true_eq, beq_iff_eq] at hcl
  refine ⟨?_, by omega, by omega, by omega⟩
  simp only [isWS, Bool.or_eq_false_iff, beq_eq_false_iff_ne, ne_eq]
  omega

theorem decDigitsOK_facts (d : List Nat) (h : decDigitsOK d = true) :
    d ≠ [] ∧ ∀ b ∈ d, 48 ≤ b ∧ b ≤ 57 := by
  simp only [decDigitsOK, Bool.and_eq_true, Bool.not_eq_true', List.isEmpty_eq_false,
    List.all_eq_true, decide_eq_true_eq] at h
  exact ⟨h.1, fun b hb => by
    have := h.2 b hb
    simp only [Bool.and_eq_true, decide_eq_true_eq] at this
    exact this⟩

theorem tokStr_no44 (e : EncSec) (hn : nameOKB e.name = true)
    (hd : decDigitsOK e.offDigits = true) : ∀ b ∈ tokStr e, b ≠ 44 := by
  intro b hb
  rcases List.mem_append.mp hb with h1 | h1
  · exact ((nameOKB_facts e.name hn).2.1 b h1).2.1
  · rcases List.mem_cons.mp h1 with h2 | h2
    · omega
    · have := (decDigitsOK_facts e.offDigits hd).2 b h2
      omega

theorem tokStr_noWS (e : EncSec) (hn : nameOKB e.name = true)
    (hd : decDigitsOK e.offDigits = true) : ∀ b ∈ tokStr e, isWS b = false := by
  intro b hb
  rcases List.mem_append.mp hb with h1 | h1
  · exact ((nameOKB_facts e.name hn).2.1 b h1).1
  · rcases List.mem_cons.mp h1 with h2 | h2
    · subst h2
      rfl
    · have := (decDigitsOK_facts e.offDigits hd).2 b h2
      simp only [isWS, Bool.or_eq_false_iff, beq_eq_false_iff_ne, ne_eq]
      omega

theorem sscanfInt_digits (d : List Nat) (h : decDigitsOK d = true) :
    sscanfInt d = ((decVal d : Nat) : Int) := by
  obtain ⟨hne, hdig⟩ := decDigitsOK_facts d h
  obtain ⟨b, r, rfl⟩ := List.exists_cons_of_ne_nil hne
  have hb := hdig b (by simp)
  have htd : takeDecDigits (b :: r) = b :: r := takeDecDigits_all (b :: r) hdig
  simp only [sscanfInt, if_neg (by omega : ¬b = 45), if_neg (by omega : ¬b = 43), htd]
  simp

theorem trimSpaceB_cons_space (l : List Nat) : trimSpaceB (32 :: l) = trimSpaceB l := by
  simp [trimSpaceB, trimLeftP, show isWS 32 = true from rfl]

theorem encToken_tokStr (e : EncSec) (hn : nameOKB e.name = true)
    (hd : decDigitsOK e.offDigits = true) :
    encToken (tokStr e) = some (e.name, ((decVal e.offDigits : Nat) : Int)) := by
  have htrim : trimSpaceB (tokStr e) = tokStr e :=
    trimSpaceB_id (tokStr e) (tokStr_noWS e hn hd)
  have hbreak : breakAtByte 61 (tokStr e) = (e.name, some e.offDigits) :=
    breakAtByte_append 61 e.name e.offDigits
      (fun b hb => ((nameOKB_facts e.name hn).2.1 b hb).2.2.1)
  have hlow : toLowerB e.name = e.name :=
    toLowerB_id e.name fun b hb => ((nameOKB_facts e.name hn).2.1 b hb).2.2.2
  have hnametrim : trimSpaceB e.name = e.name :=
    trimSpaceB_id e.name fun b hb => ((nameOKB_facts e.name hn).2.1 b hb).1
  have hdigtrim : trimSpaceB e.offDigits = e.offDigits := by
    apply trimSpaceB_id
    intro b hb
    have := (decDigitsOK_facts e.offDigits hd).2 b hb
    simp only [isWS, Bool.or_eq_false_iff, beq_eq_false_iff_ne, ne_eq]
    omega
  rw [encToken, htrim, hbreak]
  simp only [hlow, hnametrim, hdigtrim]
  rw [if_neg (nameOKB_facts e.name hn).2.2]
  rw [sscanfInt_digits e.offDigits hd]

theorem encToken_spaced_tokStr (e : EncSec) (hn : nameOKB e.name = true)
    (hd : decDigitsOK e.offDigits = true) :
    encToken (32 :: tokStr e) = some (e.name, ((decVal e.offDigits : Nat) : Int)) := by
  have h2 := encToken_tokStr e hn hd
  simp only [encToken] at h2 ⊢
  rw [trimSpaceB_cons_space]
  exact h2

theorem splitRender (e : EncSec) (rest : List EncSec)
    (h : ∀ x ∈ e :: rest, ∀ b ∈ tokStr x, b ≠ 44) :
    splitOnByte 44 (renderEnc (e :: rest)) = tokStr e :: rest.map (fun x => 32 :: tokStr x) := by
  induction rest generalizing e with
  | nil =>
    simp only [renderEnc, List.map_cons, List.map_nil, joinSep]
    rw [splitOnByte_no 44 (tokStr e) (h e (by simp))]
  | cons e2 r ih =>
    have hrender : renderEnc (e :: e2 :: r) = tokStr e ++ 44 :: 32 :: renderEnc (e2 :: r) := by
      simp [renderEnc, joinSep, bytesOf, List.append_assoc]
    rw [hrender, splitOnByte_append 44 (tokStr e) _ (h e (by simp))]
    have ih2 := ih e2 fun x hx => h x (by
      rcases List.mem_cons.mp hx with h1 | h1
      · simp [h1]
      · simp [h1])
    have h32 : splitOnByte 44 (32 :: renderEnc (e2 :: r))
        = (32 :: tokStr e2) :: r.map (fun x => 32 :: tokStr x) := by
      rw [splitOnByte, if_neg (by omega : ¬(32 : Nat) = 44), ih2]
    rw [h32]
    simp

theorem filterMap_congr_some {α β : Type} (f : α → Option β) (g : α → β) (l : List α)
    (h : ∀ x ∈ l, f x = some (g x)) : l.filterMap f = l.map g := by
  induction l with
  | nil => rfl
  | cons a r ih =>
    rw [List.filterMap_cons, h a (by simp), List.map_cons, ih fun x hx => h x (by simp [hx])]

theorem parseEncTokens_render (secs : List EncSec) (hne : secs ≠ [])
    (hn : ∀ e ∈ secs, nameOKB e.name = true)
    (hd : ∀ e ∈ secs, decDigitsOK e.offDigits = true) :
    parseEncTokens (renderEnc secs)
      = secs.map fun e => (e.name, ((decVal e.offDigits : Nat) : Int)) := by
  obtain ⟨e, rest, rfl⟩ := List.exists_cons_of_ne_nil hne
  rw [parseEncTokens, splitRender e rest
    (fun x hx => tokStr_no44 x (hn x hx) (hd x hx))]
  rw [List.filterMap_cons, encToken_tokStr e (hn e (by simp)) (hd e (by simp))]
  rw [List.filterMap_map]
  rw [filterMap_congr_some _ (fun x => (x.name, ((decVal x.offDigits : Nat) : Int))) rest ?hyp]
  case hyp =>
    intro x hx
    simp only [Function.comp]
    exact encToken_spaced_tokStr x (hn x (by simp [hx])) (hd x (by simp [hx]))
  rfl


theorem tokens_eq_offsList (secs : List EncSec) :
    ∀ off : Nat, layoutOKb off secs = true →
      (secs.map fun e => (e.name, ((decVal e.offDigits : Nat) : Int)))
        = offsList off (secs.map fun e => (e.name, e.data)) := by
  induction secs with
  | nil => intro off _; rfl
  | cons e rest ih =>
    intro off h
    simp only [layoutOKb, Bool.and_eq_true, decide_eq_true_eq] at h
    simp only [List.map_cons, offsList, h.1]
    rw [ih (off + e.data.length) h.2]

theorem sliceSections_exact :
    ∀ (entries : List (List Nat × List Nat)) (pre : List Nat),
      (∀ p ∈ entries, p.2 ≠ []) →
      sliceSections (pre ++ (entries.map Prod.snd).flatten) (offsList pre.length entries)
        = some entries := by
  intro entries
  induction entries with
  | nil => intro pre _; rfl
  | cons p r ih =>
    intro pre hne
    have hpne : p.2 ≠ [] := hne p (by simp)
    have hplen : 0 < p.2.length := List.length_pos.mpr hpne
    have hdata : pre ++ ((p :: r).map Prod.snd).flatten = (pre ++ p.2) ++ (r.map Prod.snd).flatten := by
      simp [List.append_assoc]
    have hdlen : (pre ++ ((p :: r).map Prod.snd).flatten).length
        = pre.length + p.2.length + ((r.map Prod.snd).flatten).length := by
      simp only [List.length_append, List.map_cons, List.flatten_cons]
      omega
    have hend : (match offsList (pre.length + p.2.length) r with
        | [] => ((pre ++ ((p :: r).map Prod.snd).flatten).length : Int)
        | (_, off2) :: _ => off2) = ((pre.length + p.2.length : Nat) : Int) := by
      cases r with
      | nil => simp [offsList, hdlen]
      | cons q r2 => simp [offsList]
    simp only [offsList, sliceSections]
    rw [hend]
    rw [if_neg (by
      rw [hdlen]
      push_cast
      omega)]
    rw [if_neg (by
      rw [hdlen]
      push_cast
      omega)]
    rw [if_neg (by
      push_cast
      omega)]
    have htail := ih (pre ++ p.2) (fun q hq => hne q (by simp [hq]))
    rw [List.length_append] at htail
    rw [hdata, htail]
    have hslice : ((((pre ++ p.2) ++ (r.map Prod.snd).flatten).drop
          ((pre.length : Int)).toNat).take
            (((pre.length + p.2.length : Nat) : Int) - (pre.length : Int)).toNat) = p.2 := by
      have h1 : ((pre.length : Int)).toNat = pre.length := by omega
      have h2 : (((pre.length + p.2.length : Nat) : Int) - (pre.length : Int)).toNat
          = p.2.length := by
        push_cast
        omega
      rw [h1, h2]
      rw [List.append_assoc]
      rw [List.drop_left pre (p.2 ++ (r.map Prod.snd).flatten)]
      exact List.take_left p.2 ((r.map Prod.snd).flatten)
    rw [hslice]

theorem lookupLast_not_mem (m : List (List Nat × List Nat)) (k : List Nat)
    (h : k ∉ m.map Prod.fst) : lookupLast m k = none := by
  induction m with
  | nil => rfl
  | cons q r ih =>
    have hq : q.1 ≠ k := by
      intro hc
      exact h (by simp [hc])
    rw [lookupLast, ih (fun hc => h (by simp [hc]))]
    simp [hq]

theorem lookupLast_nodup (m : List (List Nat × List Nat))
    (h : (m.map Prod.fst).Nodup) : ∀ p ∈ m, lookupLast m p.1 = some p.2 := by
  induction m with
  | nil => intro p hp; simp at hp
  | cons q r ih =>
    intro p hp
    simp only [List.map_cons, List.nodup_cons] at h
    rcases List.mem_cons.mp hp with h1 | h1
    · subst h1
      rw [lookupLast, lookupLast_not_mem r p.1 h.1]
      simp
    · rw [lookupLast, ih h.2 p h1]

/-- Claim C4 (offset round-trip): for a buffer formed by writing non-empty
sections consecutively at the offsets declared in the rendered `Encapsulated`
header value (offsets non-decreasing, within the buffer, names well-formed
and distinct), `splitEncapsulated` returns, without panicking, exactly the
declared sections: each name maps to exactly its bytes, and the returned
sections in declaration order concatenate back to the whole buffer (the
declared end). -/
theorem splitEncapsulated_roundtrip (secs : List EncSec)
    (hne : secs ≠ [])
    (hn : ∀ e ∈ secs, nameOKB e.name = true)
    (hd : ∀ e ∈ secs, decDigitsOK e.offDigits = true)
    (hdata : ∀ e ∈ secs, e.data ≠ [])
    (hnodup : (secs.map EncSec.name).Nodup)
    (hlayout : layoutOKb 0 secs = true) :
    splitEncapsulated (secsData secs) (renderEnc secs)
        = some (secs.map fun e => (e.name, e.data))
      ∧ (∀ e ∈ secs, lookupLast (secs.map fun e2 => (e2.name, e2.data)) e.name = some e.data)
      ∧ ((secs.map fun e => (e.name, e.data)).map Prod.snd).flatten = secsData secs := by
  obtain ⟨e0, rest0, hsecs⟩ := List.exists_cons_of_ne_nil hne
  have hdne : (secsData secs).isEmpty = false := by
    rw [hsecs]
    have h1 : e0.data ≠ [] := hdata e0 (by rw [hsecs]; simp)
    obtain ⟨b, bs, hb⟩ := List.exists_cons_of_ne_nil h1
    simp [secsData, hb]
  have hrne : (renderEnc secs).isEmpty = false := by
    rw [hsecs]
    have h1 := (nameOKB_facts e0.name (hn e0 (by rw [hsecs]; simp))).1
    obtain ⟨b, bs, hb⟩ := List.exists_cons_of_ne_nil h1
    cases rest0 with
    | nil => simp [renderEnc, joinSep, tokStr, hb]
    | cons x y => simp [renderEnc, joinSep, tokStr, hb]
  refine ⟨?_, ?_, ?_⟩
  · rw [splitEncapsulated, if_neg (by simp [hdne, hrne])]
    rw [parseEncTokens_render secs hne hn hd]
    rw [tokens_eq_offsList secs 0 hlayout]
    have h2 := sliceSections_exact (secs.map fun e => (e.name, e.data)) []
      (by
        intro p hp
        obtain ⟨y, hy, rfl⟩ := List.mem_map.mp hp
        exact hdata y hy)
    simp only [List.nil_append, List.length_nil] at h2
    have h3 : ((secs.map fun e => (e.name, e.data)).map Prod.snd).flatten = secsData secs := by
      rw [List.map_map]
      rfl
    rw [h3] at h2
    exact h2
  · intro e he
    have hnodup2 : ((secs.map fun e2 => (e2.name, e2.data)).map Prod.fst).Nodup := by
      rw [List.map_map]
      exact hnodup
    exact lookupLast_nodup _ hnodup2 (e.name, e.data) (List.mem_map.mpr ⟨e, he, rfl⟩)
  · rw [List.map_map]
    rfl

/-- Two-section layout witnessing the round-trip theorem. -/
def c4secs : List EncSec :=
  [⟨bytesOf "req-hdr", bytesOf "0", bytesOf "POST / HTTP/1.1\r\n\r\n"⟩,
   ⟨bytesOf "req-body", bytesOf "19", bytesOf "5\r\nhello\r\n0\r\n\r\n"⟩]

theorem splitEncapsulated_roundtrip_witness :
    splitEncapsulated (secsData c4secs) (renderEnc c4secs)
        = some (c4secs.map fun e => (e.name, e.data))
      ∧ lookupLast (c4secs.map fun e2 => (e2.name, e2.data)) (bytesOf "req-body")
        = some (bytesOf "5\r\nhello\r\n0\r\n\r\n") :=
  ⟨(splitEncapsulated_roundtrip c4secs (by decide) (by decide) (by decide) (by decide)
      (by decide) (by decide)).1,
    (splitEncapsulated_roundtrip c4secs (by decide) (by decide) (by decide) (by decide)
      (by decide) (by decide)).2.1 ⟨bytesOf "req-body", bytesOf "19",
        bytesOf "5\r\nhello\r\n0\r\n\r\n"⟩ (by decide)⟩


/-! ## Chunk extensions in `decodeChunked` (claim C5) -/

theorem hexValAux_bad (l : List Nat) (b : Nat) (hb : b ∈ l) (hv : hexDigitVal b = none) :
    ∀ acc, hexValAux l acc = none := by
  induction l with
  | nil => simp at hb
  | cons c r ih =>
    intro acc
    rcases hcv : hexDigitVal c with _ | d
    · simp [hexValAux, hcv]
    · rcases List.mem_cons.mp hb with h1 | h1
      · rw [h1] at hv
        rw [hv] at hcv
        exact absurd hcv (by simp)
      · simp only [hexValAux, hcv]
        exact ih h1 _

theorem parseHexInt_semi (l : List Nat) (h : 59 ∈ l) : parseHexInt l = none := by
  have hv : hexDigitVal 59 = none := rfl
  cases l with
  | nil => simp at h
  | cons b r =>
    by_cases h43 : b = 43
    · have h59 : (59 : Nat) ∈ r := by
        rcases List.mem_cons.mp h with h1 | h1
        · omega
        · exact h1
      cases r with
      | nil => simp at h59
      | cons c r2 =>
        simp [parseHexInt, h43, hexValAux_bad (c :: r2) 59 h59 hv]
    · by_cases h45 : b = 45
      · have h59 : (59 : Nat) ∈ r := by
          rcases List.mem_cons.mp h with h1 | h1
          · omega
          · exact h1
        cases r with
        | nil => simp at h59
        | cons c r2 =>
          simp [parseHexInt, h43, h45, hexValAux_bad (c :: r2) 59 h59 hv]
      · simp [parseHexInt, h43, h45, hexValAux_bad (b :: r) 59 h hv]

theorem mem_of_mem_trimLeftP (p : Nat → Bool) (b : Nat) (l : List Nat)
    (h : b ∈ trimLeftP p l) : b ∈ l := by
  induction l with
  | nil => simp [trimLeftP] at h
  | cons c r ih =>
    by_cases hc : p c
    · rw [trimLeftP, if_pos hc] at h
      exact List.mem_cons.mpr (Or.inr (ih h))
    · rwa [trimLeftP, if_neg hc] at h

theorem mem_of_mem_trimSpaceB (b : Nat) (l : List Nat) (h : b ∈ trimSpaceB l) : b ∈ l := by
  rw [trimSpaceB, trimRightP] at h
  have h2 := List.mem_reverse.mpr h
  rw [List.reverse_reverse] at h2
  have h3 := mem_of_mem_trimLeftP isWS b _ h2
  have h4 := List.mem_reverse.mp h3
  exact mem_of_mem_trimLeftP isWS b l h4

theorem mem_trimLeftP (p : Nat → Bool) (b : Nat) (l : List Nat)
    (hb : p b = false) (h : b ∈ l) : b ∈ trimLeftP p l := by
  induction l with
  | nil => simp at h
  | cons c r ih =>
    by_cases hc : p c
    · rw [trimLeftP, if_pos hc]
      rcases List.mem_cons.mp h with h1 | h1
      · rw [h1] at hb
        rw [hb] at hc
        simp at hc
      · exact ih h1
    · rwa [trimLeftP, if_neg hc]

theorem mem_trimSpaceB (b : Nat) (l : List Nat) (hb : isWS b = false) (h : b ∈ l) :
    b ∈ trimSpaceB l := by
  rw [trimSpaceB, trimRightP]
  rw [List.mem_reverse]
  apply mem_trimLeftP isWS b _ hb
  rw [List.mem_reverse]
  exact mem_trimLeftP isWS b l hb h

/-- Claim C5, amended: `decodeChunked` does NOT strip chunk extensions.  A
first size line that carries a semicolon fails `strconv.ParseInt` and
decoding stops at once, returning no decoded bytes (the extension strip
exists only in `readICAPMessage`, claim C1/C3 territory). -/
theorem decodeChunked_extension_stops (s : List Nat) (h : 59 ∈ (readLine s).1) :
    decodeChunked s = some [] := by
  rw [decodeChunked]
  by_cases h2 : (readLine s).2.2 = false
  · simp [decodeChunkedF, h2]
  · have hmem : 59 ∈ trimSpaceB (readLine s).1 := mem_trimSpaceB 59 _ rfl h
    have hne : (trimSpaceB (readLine s).1).isEmpty = false := by
      rw [List.isEmpty_eq_false]
      intro hc
      rw [hc] at hmem
      simp at hmem
    have hph : parseHexInt (trimSpaceB (readLine s).1) = none :=
      parseHexInt_semi _ hmem
    simp [decodeChunkedF, h2, hne, hph]

theorem decodeChunked_extension_stops_witness :
    59 ∈ (readLine (bytesOf "5;x\r\nhello\r\n0\r\n\r\n")).1 ∧
    decodeChunked (bytesOf "5;x\r\nhello\r\n0\r\n\r\n") = some [] :=
  ⟨by decide, decodeChunked_extension_stops (bytesOf "5;x\r\nhello\r\n0\r\n\r\n") (by decide)⟩

theorem decodeChunked_extension_counterexample :
    decodeChunked (bytesOf "5;ext=val\r\nhello\r\n0\r\n\r\n") = some [] ∧
    decodeChunked (bytesOf "5\r\nhello\r\n0\r\n\r\n") = some (bytesOf "hello") ∧
    decodeChunked (bytesOf "5;ext=val\r\nhello\r\n0\r\n\r\n")
      ≠ decodeChunked (bytesOf "5\r\nhello\r\n0\r\n\r\n") :=
  ⟨by decide, by decide, by decide⟩

/-! ## Token handling of the `Encapsulated` parser (claims C6 and C9) -/

theorem breakAtByte_none (c : Nat) (l : List Nat) (h : ∀ b ∈ l, b ≠ c) :
    breakAtByte c l = (l, none) := by
  induction l with
  | nil => rfl
  | cons b r ih =>
    have hb : b ≠ c := h b (by simp)
    simp [breakAtByte, hb, ih fun x hx => h x (by simp [hx])]

/-- Claim C6, amended: a comma-separated token WITHOUT an equals sign is
silently dropped, as is any token whose normalized name is `null-body`; but
a token WITH an equals sign is always kept - its name lower-cased and
trimmed and its offset scanned best-effort by `fmt.Sscanf`, defaulting to 0
when the offset text is unparseable. -/
theorem encToken_contract (tok : List Nat) :
    (¬61 ∈ tok → encToken tok = none)
    ∧ (∀ k v, breakAtByte 61 (trimSpaceB tok) = (k, some v) →
        trimSpaceB (toLowerB k) = tokNullBodyName → encToken tok = none)
    ∧ (∀ k v, breakAtByte 61 (trimSpaceB tok) = (k, some v) →
        trimSpaceB (toLowerB k) ≠ tokNullBodyName →
        encToken tok = some (trimSpaceB (toLowerB k), sscanfInt (trimSpaceB v))) := by
  refine ⟨?_, ?_, ?_⟩
  · intro h61
    have h2 : ∀ b ∈ trimSpaceB tok, b ≠ 61 := by
      intro b hb hc
      exact h61 (hc ▸ mem_of_mem_trimSpaceB b tok hb)
    rw [encToken, breakAtByte_none 61 _ h2]
  · intro k v hb hname
    rw [encToken, hb]
    simp [hname]
  · intro k v hb hname
    rw [encToken, hb]
    simp [hname]

theorem encToken_contract_witness :
    encToken (bytesOf "req-hdr") = none
    ∧ encToken (bytesOf "req-hdr=abc") = some (bytesOf "req-hdr", 0) := by
  constructor
  · exact (encToken_contract (bytesOf "req-hdr")).1 (by decide)
  · have h2 := (encToken_contract (bytesOf "req-hdr=abc")).2.2 (bytesOf "req-hdr")
      (bytesOf "abc") (by decide) (by decide)
    exact h2.trans (by decide)

theorem encToken_dropped_counterexample :
    splitEncapsulated (bytesOf "HELLO") (bytesOf "req-hdr=abc")
      = some [(bytesOf "req-hdr", bytesOf "HELLO")] := by decide

/-- Claim C9: the slicing loop of `splitEncapsulated` panics (modelled as
`none`) on a negative parsed offset - `data[start:end]` with `start = -1` is
a Go runtime panic that would crash the process, contradicting the spec's
promise that malformed input never crashes it. -/
theorem splitEncapsulated_negative_offset_panics :
    splitEncapsulated (bytesOf "x") (bytesOf "req-hdr=-1") = none
    ∧ splitEncapsulated (bytesOf "0123456789") (bytesOf "a=0, b=9, c=3") = none := by
  constructor
  · decide
  · decide

/-! ## The connection handler drops errored or empty reads (claim C10) -/

/-- Claim C10: whenever `readICAPMessage` returns (so does not panic) with a
non-nil error or an empty buffer, `handleConn` emits no log line and writes
no response bytes; the accumulated bytes are discarded. -/
theorem handleConn_drops_on_error (s : List Nat) (maxSize : Int)
    (buf rest : List Nat) (err : Option ReadErr)
    (_hread : readICAPMessage s maxSize = some (buf, rest, err))
    (h : err.isSome = true ∨ buf = []) :
    handleConnEmits buf err = (false, false) := by
  rcases h with h1 | h1
  · rw [handleConnEmits, if_pos (by simp [h1])]
  · rw [handleConnEmits, if_pos (by simp [h1])]

theorem handleConn_drops_on_error_witness :
    readICAPMessage (bytesOf "REQMOD icap://h/s ICAP/1.0") 1000
      = some (bytesOf "REQMOD icap://h/s ICAP/1.0", [], some ReadErr.eof)
    ∧ handleConnEmits (bytesOf "REQMOD icap://h/s ICAP/1.0") (some ReadErr.eof)
      = (false, false) :=
  ⟨by decide,
    handleConn_drops_on_error (bytesOf "REQMOD icap://h/s ICAP/1.0") 1000
      (bytesOf "REQMOD icap://h/s ICAP/1.0") [] (some ReadErr.eof)
      (by decide) (Or.inl (by decide))⟩


/-! ## Binary classifier monotonicity (claim C7) -/

theorem isBinary_snoc_printable (data : List Nat) (b : Nat)
    (hb : nonPrintableB b = false) (h : isBinary data = false) :
    isBinary (data ++ [b]) = false := by
  by_cases hlen : 512 ≤ data.length
  · simp only [isBinary] at h ⊢
    rw [List.take_append_of_le_length hlen]
    exact h
  · push_neg at hlen
    have htake2 : (data ++ [b]).take 512 = data ++ [b] :=
      List.take_of_length_le (by simp only [List.length_append, List.length_cons, List.length_nil]; omega)
    have htake1 : data.take 512 = data := List.take_of_length_le (by omega)
    simp only [isBinary, htake1] at h
    simp only [isBinary, htake2]
    by_cases hdn : data = []
    · subst hdn
      simp [List.countP_cons, hb]
    · rw [if_neg (by simp [hdn])] at h
      rw [if_neg (by simp)]
      simp only [decide_eq_false_iff_not, not_lt] at h ⊢
      rw [List.countP_append, List.length_append]
      have hcb : List.countP nonPrintableB [b] = 0 := by simp [List.countP_cons, hb]
      rw [hcb, Nat.add_zero]
      simp only [List.length_cons, List.length_nil, Nat.zero_add]
      have hpos : 0 < data.length := List.length_pos.mpr hdn
      have hstep : List.countP nonPrintableB data * 100 / (data.length + 1)
          ≤ List.countP nonPrintableB data * 100 / data.length :=
        Nat.div_le_div_left (by omega) hpos
      omega

theorem isBinary_snoc_nonprintable (data : List Nat) (b : Nat)
    (hb : nonPrintableB b = true) (h : isBinary data = true) :
    isBinary (data ++ [b]) = true := by
  by_cases hlen : 512 ≤ data.length
  · simp only [isBinary] at h ⊢
    rw [List.take_append_of_le_length hlen]
    exact h
  · push_neg at hlen
    have htake2 : (data ++ [b]).take 512 = data ++ [b] :=
      List.take_of_length_le (by simp only [List.length_append, List.length_cons, List.length_nil]; omega)
    have htake1 : data.take 512 = data := List.take_of_length_le (by omega)
    simp only [isBinary, htake1] at h
    simp only [isBinary, htake2]
    have hdn : data ≠ [] := by
      intro hc
      subst hc
      simp at h
    have hpos : 0 < data.length := List.length_pos.mpr hdn
    rw [if_neg (by simp [hdn])] at h
    rw [if_neg (by simp)]
    simp only [decide_eq_true_eq] at h ⊢
    rw [List.countP_append, List.length_append]
    have hcb : List.countP nonPrintableB [b] = 1 := by simp [List.countP_cons, hb]
    rw [hcb]
    simp only [List.length_cons, List.length_nil, Nat.zero_add]
    have h11 : 11 ≤ List.countP nonPrintableB data * 100 / data.length := h
    have hmul : 11 * data.length ≤ List.countP nonPrintableB data * 100 :=
      (Nat.le_div_iff_mul_le hpos).mp h11
    have h12 : 11 ≤ (List.countP nonPrintableB data + 1) * 100 / (data.length + 1) := by
      apply (Nat.le_div_iff_mul_le (by omega)).mpr
      omega
    omega

/-- Claim C7 (binary classifier monotonicity): appending printable bytes to
an input classified as text never flips `isBinary` to binary, and appending
non-printable bytes to an input classified as binary never flips it to
text. -/
theorem isBinary_monotone (data more : List Nat) :
    ((∀ b ∈ more, nonPrintableB b = false) → isBinary data = false →
      isBinary (data ++ more) = false)
    ∧ ((∀ b ∈ more, nonPrintableB b = true) → isBinary data = true →
      isBinary (data ++ more) = true) := by
  induction more generalizing data with
  | nil => simp
  | cons b r ih =>
    constructor
    · intro hall h
      have h1 := isBinary_snoc_printable data b (hall b (by simp)) h
      have h2 := (ih (data ++ [b])).1 (fun x hx => hall x (by simp [hx])) h1
      simpa [List.append_assoc] using h2
    · intro hall h
      have h1 := isBinary_snoc_nonprintable data b (hall b (by simp)) h
      have h2 := (ih (data ++ [b])).2 (fun x hx => hall x (by simp [hx])) h1
      simpa [List.append_assoc] using h2

theorem isBinary_monotone_witness :
    isBinary (bytesOf "hello" ++ bytesOf " world, more printable text") = false
    ∧ isBinary ([0, 1, 2] ++ [3, 4, 5, 6]) = true :=
  ⟨(isBinary_monotone (bytesOf "hello") (bytesOf " world, more printable text")).1
      (by decide) (by decide),
    (isBinary_monotone [0, 1, 2] [3, 4, 5, 6]).2 (by decide) (by decide)⟩

/-! ## Multipart summarizer never exposes file content (claim C8) -/

/-- Two part lists agree on everything the summarizer may reveal: same
filenames, field names and content types, same content for non-file parts,
and merely the same content LENGTH for filename-bearing parts. -/
def partsSimilar (p q : MPart) : Prop :=
  p.filename = q.filename ∧ p.formName = q.formName ∧ p.contentType = q.contentType
    ∧ (p.filename ≠ [] → p.data.length = q.data.length)
    ∧ (p.filename = [] → p.data = q.data)

theorem partToken_similar (p q : MPart) (h : partsSimilar p q) :
    partToken p = partToken q := by
  obtain ⟨h1, h2, h3, h4, h5⟩ := h
  by_cases hf : q.filename = []
  · have hdata : p.data = q.data := h5 (by rw [h1]; exact hf)
    rw [partToken, partToken, h1, h2, h3, hdata]
  · have hlen : p.data.length = q.data.length := h4 (by rw [h1]; exact hf)
    have hfne : ¬(q.filename.isEmpty) = true := by simp [hf]
    rw [partToken, partToken, h1, h3]
    rw [if_pos hfne, if_pos hfne, hlen]

/-- Claim C8 (multipart safety): the summarization loop's output depends on
a filename-bearing part's content only through its byte count - two part
sequences that agree on names, content types, non-file content and the file
parts' content lengths produce identical output, so no byte of a file
part's content can flow into the summary. -/
theorem parseMultipartBody_file_content_hidden (ps qs : List MPart) (n : Nat)
    (h : List.Forall₂ partsSimilar ps qs) :
    renderParts ps n = renderParts qs n := by
  have htok : ps.map partToken = qs.map partToken := by
    induction h with
    | nil => rfl
    | cons hpq _ ih =>
      simp only [List.map_cons, ih]
      rw [partToken_similar _ _ hpq]
  have hemp : ps.isEmpty = qs.isEmpty := by
    have hl := List.Forall₂.length_eq h
    cases ps <;> cases qs <;> simp_all
  rw [renderParts, renderParts, htok, hemp]

theorem parseMultipartBody_file_content_hidden_witness :
    renderParts [⟨bytesOf "a.bin", bytesOf "up", bytesOf "application/pdf", bytesOf "SECRET1"⟩] 7
      = renderParts
        [⟨bytesOf "a.bin", bytesOf "up", bytesOf "application/pdf", bytesOf "2NDFILE"⟩] 7 :=
  parseMultipartBody_file_content_hidden _ _ 7
    (List.Forall₂.cons ⟨rfl, rfl, rfl, fun _ => rfl, fun h2 => absurd h2 (by decide)⟩
      List.Forall₂.nil)

/-! ## The tunnel marker (claim C2) -/

/-- Claim C2, amended: the emitted record has `tunneled = true` and
`req_body` equal to the placeholder iff the reconstructed method is
`CONNECT` AND the sanitized decoded body is either empty or happens to be
exactly the placeholder text itself (in which case it is passed through
verbatim). -/
theorem tunnel_marker_amended (i : InfoModel) :
    (recordTunneled i = true ∧ recordReqBody i = tunnelPlaceholder) ↔
      (i.reqMethod = bytesOf "CONNECT" ∧ (i.reqBody = [] ∨ i.reqBody = tunnelPlaceholder)) := by
  by_cases hm : i.reqMethod = bytesOf "CONNECT"
  · by_cases hb : i.reqBody = []
    · simp [recordReqBody, recordTunneled, hm, hb]
    · simp [recordReqBody, recordTunneled, hm, hb]
  · simp [recordReqBody, recordTunneled, hm]

/-- A complete REQMOD message whose encapsulated request is a CONNECT and
whose chunked request body decodes to exactly the tunnel placeholder text
(47 bytes, chunk size 0x2f). -/
def c2raw : List Nat :=
  bytesOf "REQMOD icap://h/s ICAP/1.0\r\nEncapsulated: req-hdr=0, req-body=47\r\n\r\nCONNECT e.com:443 HTTP/1.1\r\nHost: e.com:443\r\n\r\n2f\r\n[tunneled: HTTPS traffic, body not inspectable]\r\n0\r\n\r\n"

set_option maxRecDepth 8000 in
theorem tunnel_marker_counterexample :
    (parseICAPModel c2raw).isSome = true
    ∧ (parseICAPModel c2raw).map (fun i => i.reqMethod) = some (bytesOf "CONNECT")
    ∧ (parseICAPModel c2raw).map (fun i => decide (i.reqBody = [])) = some false
    ∧ (parseICAPModel c2raw).map recordTunneled = some true
    ∧ (parseICAPModel c2raw).map recordReqBody = some tunnelPlaceholder
    ∧ isOptionsMsg c2raw = false
    ∧ readICAPMessage c2raw 10485760 = some (c2raw, [], none) :=
  ⟨by decide, by decide, by decide, by decide, by decide, by decide, by decide⟩

end Icap
